import Mathlib

/-!
Shallow embedding of the minibits ippon wallet service.

The embedding follows the TypeScript sources:
  * `src/services/walletService.ts` — the proof-lifecycle engine,
  * `src/services/exchangeRateService.ts` — the rate cache,
  * `src/services/nostrService.ts` — pubkey normalisation,
  * `src/routes/protectedRoutes.ts` — the affected route handlers.

Conventions: the Prisma store is a list of `Proof` table rows; machine
numbers (ids, amounts, status codes) are `Nat` (all are small positive
integers in the source); JS float division in the rate service is modelled
as exact division over `Rat`.  Mint calls and other collaborators are
parameters (`MintBehavior`, the fetch outcome, the nip19 decoder), since
the repository treats them as external collaborators.  A thrown JS
exception is an explicit error value; because database writes performed
before a throw persist, fallible store computations return a `DbOut`
carrying the store at the moment of the outcome.
-/

deriving instance DecidableEq for Except

namespace Ippon

/-- Proof status enum (`ProofStatus` in the Prisma schema). -/
inductive ProofStatus where
  | UNSPENT
  | PENDING
  | SPENT
deriving DecidableEq, Repr

/-- A cashu proof as handled by the wallet service (`Proof` of cashu-ts);
`dleq` and `witness` are kept opaque as in the source. -/
structure Proof where
  id : String
  amount : Nat
  secret : String
  C : String
  dleq : Option String
  witness : Option String
deriving DecidableEq, Repr

/-- One row of the `Proof` database table. -/
structure DbProof where
  walletId : Nat
  proofId : String
  amount : Nat
  secret : String
  C : String
  dleq : Option String
  witness : Option String
  status : ProofStatus
deriving DecidableEq, Repr

/-- The proof store: the rows of the `Proof` table in insertion order. -/
abbrev Store := List DbProof

/-- Error kinds (`Err` in `utils/AppError.ts`). -/
inductive ErrKind where
  | CONNECTION_ERROR
  | DATABASE_ERROR
  | VALIDATION_ERROR
  | UNKNOWN_ERROR
  | TIMEOUT_ERROR
  | NOTFOUND_ERROR
  | ALREADY_EXISTS_ERROR
  | UNAUTHORIZED_ERROR
  | SERVER_ERROR
  | LIMIT_ERROR
deriving DecidableEq, Repr

/-- `AppError` carries an HTTP status code and a kind. -/
structure AppError where
  statusCode : Nat
  name : ErrKind
deriving DecidableEq, Repr

/-- A thrown JS exception: an `AppError`, a cashu `MintOperationError`
with its numeric code, or a plain `Error` with a message. -/
inductive Thrown where
  | app : AppError → Thrown
  | mintOp : Nat → Thrown
  | error : String → Thrown
deriving DecidableEq, Repr

/-- Outcome of a store computation: database writes made before a throw
persist, so both constructors carry the store. -/
inductive DbOut (α : Type) where
  | ok : α → Store → DbOut α
  | err : Thrown → Store → DbOut α
deriving DecidableEq, Repr

/-- Conversion of a cashu proof to a table row (the `data` literal of
`prisma.proof.create` in `saveProofs`). -/
def proofToRow (walletId : Nat) (status : ProofStatus) (p : Proof) : DbProof :=
  { walletId := walletId, proofId := p.id, amount := p.amount, secret := p.secret,
    C := p.C, dleq := p.dleq, witness := p.witness, status := status }

/-- Conversion of a table row back to a cashu proof (the mapping in
`loadProofs`). -/
def rowToProof (r : DbProof) : Proof :=
  { id := r.proofId, amount := r.amount, secret := r.secret, C := r.C,
    dleq := r.dleq, witness := r.witness }

/-- `prisma.proof.create`: the schema has a global `UNIQUE` index on
`secret` (`Proof_secret_key`), so inserting a duplicate secret throws;
otherwise the row is appended. -/
def proofCreate (row : DbProof) (s : Store) : DbOut Unit :=
  if row.secret ∈ s.map DbProof.secret then
    DbOut.err (Thrown.error "Unique constraint failed on the fields: secret") s
  else
    DbOut.ok () (s ++ [row])

/-- `saveProofs` from `walletService.ts`: a plain loop of individual
`prisma.proof.create` calls (no transaction); a failing create aborts the
loop with the earlier rows already written. -/
def saveProofs (walletId : Nat) (proofs : List Proof) (status : ProofStatus)
    (s : Store) : DbOut Unit :=
  match proofs with
  | [] => DbOut.ok () s
  | p :: rest =>
    match proofCreate (proofToRow walletId status p) s with
    | DbOut.err e s' => DbOut.err e s'
    | DbOut.ok _ s' => saveProofs walletId rest status s'

/-- `loadProofs`: rows of the wallet with the requested status (default
`UNSPENT`), mapped back to cashu proofs. -/
def loadProofs (walletId : Nat) (status : Option ProofStatus) (s : Store) :
    List Proof :=
  let st := status.getD ProofStatus.UNSPENT
  (s.filter (fun r => decide (r.walletId = walletId ∧ r.status = st))).map rowToProof

/-- `updateProofsStatus`: one `updateMany` constrained by `walletId` and
secret membership. -/
def updateProofsStatus (walletId : Nat) (secrets : List String)
    (status : ProofStatus) (s : Store) : Store :=
  s.map (fun r =>
    if r.walletId = walletId ∧ r.secret ∈ secrets then
      { r with status := status }
    else r)

/-- `getProofsAmount`: the summation loop over proof amounts. -/
def getProofsAmount (proofs : List Proof) : Nat :=
  proofs.foldl (fun acc p => acc + p.amount) 0

/-- `getWalletBalance`: the pair of `aggregate` sums over `UNSPENT` and
`PENDING` rows of the wallet. -/
def getWalletBalance (walletId : Nat) (s : Store) : Nat × Nat :=
  (((s.filter (fun r => decide (r.walletId = walletId ∧ r.status = ProofStatus.UNSPENT))).map
      DbProof.amount).sum,
   ((s.filter (fun r => decide (r.walletId = walletId ∧ r.status = ProofStatus.PENDING))).map
      DbProof.amount).sum)

/-- Mint quote state of cashu-ts (`MintQuoteState`). -/
inductive MintQuoteState where
  | UNPAID
  | PAID
  | ISSUED
deriving DecidableEq, Repr

/-- Melt quote state of cashu-ts (`MeltQuoteState`). -/
inductive MeltQuoteState where
  | UNPAID
  | PENDING
  | PAID
deriving DecidableEq, Repr

/-- Proof state at the mint (`CheckStateEnum`). -/
inductive CheckStateEnum where
  | UNSPENT
  | PENDING
  | SPENT
deriving DecidableEq, Repr

/-- A `ProofState` entry returned by `checkProofsStates`. -/
structure ProofStateEntry where
  state : CheckStateEnum
deriving DecidableEq, Repr

/-- `MintQuoteBolt11Response` fields used by the engine. -/
structure MintQuoteResp where
  quote : String
  request : String
  state : MintQuoteState
  expiry : Nat
  amount : Nat
deriving DecidableEq, Repr

/-- `MeltQuoteBolt11Response` fields used by the engine. -/
structure MeltQuoteResp where
  quote : String
  amount : Nat
  fee_reserve : Nat
  state : MeltQuoteState
deriving DecidableEq, Repr

/-- The `{keep, send}` pair returned by `wallet.send`. -/
structure SendResult where
  keep : List Proof
  send : List Proof
deriving DecidableEq, Repr

/-- The `{quote, change}` pair returned by `wallet.meltProofsBolt11`. -/
structure MeltResult where
  quote : MeltQuoteResp
  change : List Proof
deriving DecidableEq, Repr

/-- The P2PK output configuration `{send: {type: p2pk, options: {pubkey}}}`
is determined by its pubkey. -/
structure OutputConfig where
  pubkey : String
deriving DecidableEq, Repr

/-- The cashu mint collaborator: each wire primitive either returns a
value or throws. -/
structure MintBehavior where
  send : Nat → List Proof → Bool → Option OutputConfig → Except Thrown SendResult
  meltProofsBolt11 : MeltQuoteResp → List Proof → Except Thrown MeltResult
  checkMeltQuoteBolt11 : String → Except Thrown MeltQuoteResp
  checkProofsStates : List Proof → Except Thrown (List ProofStateEntry)
  checkMintQuoteBolt11 : String → Except Thrown MintQuoteResp
  mintProofsBolt11 : Nat → String → Except Thrown (List Proof)

/-- `sendProofs` from `walletService.ts`: swap the wallet's `UNSPENT`
proofs into a `{keep, send}` split, mark swapped inputs `SPENT`, insert
the genuinely new `keep` proofs `UNSPENT` and the genuinely new `send`
proofs `PENDING`, and flip inputs returned verbatim in `send` to
`PENDING`. -/
def sendProofs (mint : MintBehavior) (walletId : Nat) (amount : Nat)
    (p2pkPubkey : Option String) (s : Store) : DbOut SendResult :=
  let proofs := loadProofs walletId none s
  let totalBalance := getProofsAmount proofs
  if totalBalance < amount then
    DbOut.err (Thrown.app (AppError.mk 400 ErrKind.VALIDATION_ERROR)) s
  else
    let outputConfig := p2pkPubkey.map OutputConfig.mk
    match mint.send amount proofs true outputConfig with
    | Except.error e => DbOut.err e s
    | Except.ok res =>
      let keep := res.keep
      let send := res.send
      let returnedSecrets := keep.map Proof.secret ++ send.map Proof.secret
      let swappedSecrets :=
        (proofs.map Proof.secret).filter (fun x => decide (x ∉ returnedSecrets))
      let s1 := if swappedSecrets.length > 0 then
          updateProofsStatus walletId swappedSecrets ProofStatus.SPENT s
        else s
      let inputSecrets := proofs.map Proof.secret
      let newKeep := keep.filter (fun p => decide (p.secret ∉ inputSecrets))
      let newSend := send.filter (fun p => decide (p.secret ∉ inputSecrets))
      match (if newKeep.length > 0 then
          saveProofs walletId newKeep ProofStatus.UNSPENT s1
        else DbOut.ok () s1) with
      | DbOut.err e s2 => DbOut.err e s2
      | DbOut.ok _ s2 =>
        match (if newSend.length > 0 then
            saveProofs walletId newSend ProofStatus.PENDING s2
          else DbOut.ok () s2) with
        | DbOut.err e s3 => DbOut.err e s3
        | DbOut.ok _ s3 =>
          let inputSendSecrets :=
            (send.map Proof.secret).filter (fun x => decide (x ∈ inputSecrets))
          let s4 := if inputSendSecrets.length > 0 then
              updateProofsStatus walletId inputSendSecrets ProofStatus.PENDING s3
            else s3
          DbOut.ok res s4

/-- The `{spent, pending, unspent}` counts returned by
`syncProofsStateWithMint`. -/
structure SyncResult where
  spent : Nat
  pending : Nat
  unspent : Nat
deriving DecidableEq, Repr

/-- `syncProofsStateWithMint`: ask the mint about the wallet's `PENDING`
proofs and set local status from the mint's answer.  The indexed loop
with the optional access `mintStates[i]?.state` pairs each pending proof
with the state at the same index and skips proofs beyond the shorter
list, which is the semantics of `zip`. -/
def syncProofsStateWithMint (mint : MintBehavior) (walletId : Nat) (s : Store) :
    DbOut SyncResult :=
  let pendingProofs := loadProofs walletId (some ProofStatus.PENDING) s
  if pendingProofs.length = 0 then
    DbOut.ok (SyncResult.mk 0 0 0) s
  else
    match mint.checkProofsStates pendingProofs with
    | Except.error e => DbOut.err e s
    | Except.ok mintStates =>
      let spentSecrets := (pendingProofs.zip mintStates).filterMap
        (fun pr => if pr.2.state = CheckStateEnum.SPENT then some pr.1.secret else none)
      let unspentSecrets := (pendingProofs.zip mintStates).filterMap
        (fun pr => if pr.2.state = CheckStateEnum.UNSPENT then some pr.1.secret else none)
      let s1 := if spentSecrets.length > 0 then
          updateProofsStatus walletId spentSecrets ProofStatus.SPENT s
        else s
      let s2 := if unspentSecrets.length > 0 then
          updateProofsStatus walletId unspentSecrets ProofStatus.UNSPENT s1
        else s1
      DbOut.ok
        (SyncResult.mk spentSecrets.length
          (pendingProofs.length - spentSecrets.length - unspentSecrets.length)
          unspentSecrets.length) s2

/-- The `try` block of the melt attempt in `meltProofs`: pay the quote,
then mark the reserved proofs `SPENT` and insert the returned change
`UNSPENT`. -/
def meltTryBlock (mint : MintBehavior) (walletId : Nat)
    (meltQuote : MeltQuoteResp) (sendSecrets : List String)
    (proofsToSend : List Proof) (s : Store) : DbOut MeltResult :=
  match mint.meltProofsBolt11 meltQuote proofsToSend with
  | Except.error e => DbOut.err e s
  | Except.ok meltResponse =>
    let s1 := updateProofsStatus walletId sendSecrets ProofStatus.SPENT s
    match (if meltResponse.change.length > 0 then
        saveProofs walletId meltResponse.change ProofStatus.UNSPENT s1
      else DbOut.ok () s1) with
    | DbOut.err e s2 => DbOut.err e s2
    | DbOut.ok _ s2 => DbOut.ok meltResponse s2

/-- The body of the inner `try` of the melt error handler: re-check the
quote with the mint and branch on its authoritative state. -/
def meltRecheckBody (mint : MintBehavior) (walletId : Nat)
    (meltQuote : MeltQuoteResp) (sendSecrets : List String) (e : Thrown)
    (s : Store) : DbOut MeltResult :=
  match mint.checkMeltQuoteBolt11 meltQuote.quote with
  | Except.error checkErr => DbOut.err checkErr s
  | Except.ok quoteCheck =>
    match quoteCheck.state with
    | MeltQuoteState.PAID =>
      let s1 := updateProofsStatus walletId sendSecrets ProofStatus.SPENT s
      DbOut.ok (MeltResult.mk quoteCheck []) s1
    | MeltQuoteState.PENDING =>
      DbOut.err (Thrown.app (AppError.mk 202 ErrKind.TIMEOUT_ERROR)) s
    | MeltQuoteState.UNPAID =>
      let errorCode : Option Nat :=
        match e with
        | Thrown.mintOp c => some c
        | _ => none
      if errorCode = some 11002 then
        match syncProofsStateWithMint mint walletId s with
        | DbOut.err e' s1 => DbOut.err e' s1
        | DbOut.ok _ s1 =>
          DbOut.err (Thrown.app (AppError.mk 202 ErrKind.TIMEOUT_ERROR)) s1
      else if errorCode = some 11001 then
        match syncProofsStateWithMint mint walletId s with
        | DbOut.err e' s1 => DbOut.err e' s1
        | DbOut.ok _ s1 =>
          DbOut.err (Thrown.app (AppError.mk 500 ErrKind.CONNECTION_ERROR)) s1
      else
        let s1 := updateProofsStatus walletId sendSecrets ProofStatus.UNSPENT s
        DbOut.err (Thrown.app (AppError.mk 500 ErrKind.CONNECTION_ERROR)) s1

/-- The melt error handler (the outer `catch`): run the re-check logic;
an `AppError` raised inside it propagates unchanged, any other failure of
the re-check is wrapped as a 500 connection error with no state change. -/
def meltCatch (mint : MintBehavior) (walletId : Nat)
    (meltQuote : MeltQuoteResp) (sendSecrets : List String) (e : Thrown)
    (s : Store) : DbOut MeltResult :=
  match meltRecheckBody mint walletId meltQuote sendSecrets e s with
  | DbOut.ok r s' => DbOut.ok r s'
  | DbOut.err checkErr s' =>
    match checkErr with
    | Thrown.app a => DbOut.err (Thrown.app a) s'
    | _ => DbOut.err (Thrown.app (AppError.mk 500 ErrKind.CONNECTION_ERROR)) s'

/-- The melt attempt: the `try`/`catch` around the mint payment. -/
def meltAttempt (mint : MintBehavior) (walletId : Nat)
    (meltQuote : MeltQuoteResp) (sendSecrets : List String)
    (proofsToSend : List Proof) (s : Store) : DbOut MeltResult :=
  match meltTryBlock mint walletId meltQuote sendSecrets proofsToSend s with
  | DbOut.ok r s' => DbOut.ok r s'
  | DbOut.err e s' => meltCatch mint walletId meltQuote sendSecrets e s'

/-- `meltProofs` from `walletService.ts`: reserve `amount + fee_reserve`
via a swap (phase A bookkeeping exactly as in `sendProofs`, with the new
`keep` order swapped), then attempt the Lightning payment with the melt
error handler around it. -/
def meltProofs (mint : MintBehavior) (walletId : Nat)
    (meltQuote : MeltQuoteResp) (s : Store) : DbOut MeltResult :=
  let amountNeeded := meltQuote.amount + meltQuote.fee_reserve
  let proofs := loadProofs walletId none s
  let totalBalance := getProofsAmount proofs
  if totalBalance < amountNeeded then
    DbOut.err (Thrown.app (AppError.mk 400 ErrKind.VALIDATION_ERROR)) s
  else
    match mint.send amountNeeded proofs false none with
    | Except.error e => DbOut.err e s
    | Except.ok res =>
      let proofsToKeep := res.keep
      let proofsToSend := res.send
      let returnedSecrets :=
        proofsToKeep.map Proof.secret ++ proofsToSend.map Proof.secret
      let inputSecrets := proofs.map Proof.secret
      let swappedSecrets := inputSecrets.filter (fun x => decide (x ∉ returnedSecrets))
      let s1 := if swappedSecrets.length > 0 then
          updateProofsStatus walletId swappedSecrets ProofStatus.SPENT s
        else s
      let newKeep := proofsToKeep.filter (fun p => decide (p.secret ∉ inputSecrets))
      match (if newKeep.length > 0 then
          saveProofs walletId newKeep ProofStatus.UNSPENT s1
        else DbOut.ok () s1) with
      | DbOut.err e s2 => DbOut.err e s2
      | DbOut.ok _ s2 =>
        let sendSecrets := proofsToSend.map Proof.secret
        let existingSendSecrets := sendSecrets.filter (fun x => decide (x ∈ inputSecrets))
        let newSendProofs := proofsToSend.filter (fun p => decide (p.secret ∉ inputSecrets))
        let s3 := if existingSendSecrets.length > 0 then
            updateProofsStatus walletId existingSendSecrets ProofStatus.PENDING s2
          else s2
        match (if newSendProofs.length > 0 then
            saveProofs walletId newSendProofs ProofStatus.PENDING s3
          else DbOut.ok () s3) with
        | DbOut.err e s4 => DbOut.err e s4
        | DbOut.ok _ s4 =>
          meltAttempt mint walletId meltQuote sendSecrets proofsToSend s4

/-- Service wrapper `checkMintQuote`: any throw of the wire call is
wrapped as a 500 connection `AppError`. -/
def checkMintQuote (mint : MintBehavior) (quoteId : String) :
    Except Thrown MintQuoteResp :=
  match mint.checkMintQuoteBolt11 quoteId with
  | Except.ok q => Except.ok q
  | Except.error _ =>
    Except.error (Thrown.app (AppError.mk 500 ErrKind.CONNECTION_ERROR))

/-- Service wrapper `mintProofs`: any throw of the wire call is wrapped
as a 500 connection `AppError`. -/
def mintProofs (mint : MintBehavior) (amount : Nat) (quoteId : String) :
    Except Thrown (List Proof) :=
  match mint.mintProofsBolt11 amount quoteId with
  | Except.ok ps => Except.ok ps
  | Except.error _ =>
    Except.error (Thrown.app (AppError.mk 500 ErrKind.CONNECTION_ERROR))

/-- The response body of `GET /wallet/deposit/:quote`. -/
structure DepositQuoteResponse where
  quote : String
  request : String
  state : MintQuoteState
  expiry : Nat
deriving DecidableEq, Repr

/-- The `GET /wallet/deposit/:quote` handler from `protectedRoutes.ts`:
check the quote with the mint; when it reports `PAID`, opportunistically
mint and persist the proofs `UNSPENT` inside a `try` whose `catch` only
logs, so a failure of that step never changes the response. -/
def checkDepositQuoteHandler (mint : MintBehavior) (walletId : Nat)
    (quoteId : String) (s : Store) : DbOut DepositQuoteResponse :=
  match checkMintQuote mint quoteId with
  | Except.error e => DbOut.err e s
  | Except.ok quote =>
    let afterMint : Store :=
      if quote.state = MintQuoteState.PAID then
        match mintProofs mint quote.amount quote.quote with
        | Except.error _ => s
        | Except.ok proofs =>
          match saveProofs walletId proofs ProofStatus.UNSPENT s with
          | DbOut.ok _ s' => s'
          | DbOut.err _ s' => s'
      else s
    DbOut.ok
      (DepositQuoteResponse.mk quote.quote quote.request quote.state quote.expiry)
      afterMint

/-- The overall-state computation of the `POST /wallet/check` handler:
`overallState` starts as the string UNKNOWN and is overwritten by the
`every`-chain. -/
def computeOverallState (states : List CheckStateEnum) : String := Id.run do
  let mut overallState : String := "UNKNOWN"
  if states.all (fun x => decide (x = CheckStateEnum.UNSPENT)) then
    overallState := "UNSPENT"
  else if states.all (fun x => decide (x = CheckStateEnum.SPENT)) then
    overallState := "SPENT"
  else if states.all (fun x => decide (x = CheckStateEnum.PENDING)) then
    overallState := "PENDING"
  else
    overallState := "MIXED"
  return overallState

/-- Result of the nip19 `decode` collaborator (`nostr-tools`): a decode
may throw, return an npub with its 32-byte x-only hex data, or return a
value of another bech32 type. -/
inductive Nip19Decoded where
  | npub : String → Nip19Decoded
  | other : Nip19Decoded
deriving DecidableEq, Repr

/-- The `startsWith` test of JS strings, on the character sequence (the
byte-position implementation of `String.startsWith` does not reduce in
the kernel; on literals both agree). -/
def strStartsWith (s pre : String) : Bool :=
  decide (s.data.take pre.data.length = pre.data)

/-- `normalizePubkey` from `nostrService.ts`, parameterised by the nip19
decoder.  Inside the npub branch, both a wrong decoded type and a decoder
throw end as a 400 validation `AppError` (the former is rethrown by the
`catch`, the latter wrapped by it). -/
def normalizePubkey (decode : String → Except String Nip19Decoded)
    (pubkey : String) : Except AppError String :=
  if strStartsWith pubkey "npub" then
    match decode pubkey with
    | Except.ok (Nip19Decoded.npub d) => Except.ok ("02" ++ d)
    | Except.ok Nip19Decoded.other =>
      Except.error (AppError.mk 400 ErrKind.VALIDATION_ERROR)
    | Except.error _ =>
      Except.error (AppError.mk 400 ErrKind.VALIDATION_ERROR)
  else if pubkey.length = 64 then
    Except.ok ("02" ++ pubkey)
  else if pubkey.length = 66 then
    Except.ok pubkey
  else
    Except.error (AppError.mk 400 ErrKind.VALIDATION_ERROR)

/-- ASCII lowercasing of one character (the byte-position implementation
of `String.toLower` does not reduce in the kernel; on the ASCII currency
codes both agree). -/
def charLower (c : Char) : Char :=
  if 65 ≤ c.toNat ∧ c.toNat ≤ 90 then Char.ofNat (c.toNat + 32) else c

/-- ASCII uppercasing of one character. -/
def charUpper (c : Char) : Char :=
  if 97 ≤ c.toNat ∧ c.toNat ≤ 122 then Char.ofNat (c.toNat - 32) else c

/-- `toLowerCase` of JS strings on the character sequence. -/
def strToLower (s : String) : String := String.mk (s.data.map charLower)

/-- `toUpperCase` of JS strings on the character sequence. -/
def strToUpper (s : String) : String := String.mk (s.data.map charUpper)

/-- `RateResponse` of `exchangeRateService.ts`; JS float rates are
modelled as exact rationals. -/
structure RateResponse where
  currency : String
  rate : Rat
  timestamp : Nat
deriving DecidableEq, Repr

/-- The process-wide rate cache keyed by lowercase currency. -/
abbrev RateCacheMap := List (String × RateResponse)

/-- Supported currency list of `exchangeRateService.ts`. -/
def SUPPORTED_CURRENCIES : List String := ["usd", "eur", "cad", "gbp"]

/-- `isSupportedCurrency`. -/
def isSupportedCurrency (currency : String) : Bool :=
  SUPPORTED_CURRENCIES.contains (strToLower currency)

def SATOSHIS_PER_BTC : Nat := 100000000

def RATE_CACHE_TTL_MS : Nat := 120000

/-- Lookup in the cache object by key. -/
def lookupRateCache (cache : RateCacheMap) (k : String) : Option RateResponse :=
  (cache.find? (fun e => e.1 == k)).map Prod.snd

/-- The cache-warming loop after a successful fetch: every currency of
the oracle answer with a truthy rate is written with the same
timestamp. -/
def warmRateCache (cache : RateCacheMap) (rates : List (String × Rat))
    (now : Nat) : RateCacheMap :=
  rates.foldl
    (fun acc cr =>
      if cr.2 ≠ 0 then
        (acc.filter (fun e => e.1 ≠ cr.1)) ++
          [(cr.1, RateResponse.mk (strToUpper cr.1) ((SATOSHIS_PER_BTC : Rat) / cr.2) now)]
      else acc)
    cache

/-- The `try` block of `getExchangeRate` after the support check: obtain
the oracle rates (`fetchResult` stands for the outcome of
`fetchRatesFromCoinGecko`, an `Error` on timeout, non-2xx status or
invalid body), look up the requested currency — a missing or falsy rate
throws inside the `try` — then build the response and warm the cache. -/
def rateTryBlock (fetchResult : Except String (List (String × Rat)))
    (now : Nat) (cache : RateCacheMap) (currencyLower currencyUpper : String) :
    Except String (RateResponse × RateCacheMap) :=
  match fetchResult with
  | Except.error msg => Except.error msg
  | Except.ok rates =>
    match (rates.find? (fun e => e.1 == currencyLower)).map Prod.snd with
    | none => Except.error "No rate available for currency"
    | some rateInFiat =>
      if rateInFiat = 0 then Except.error "No rate available for currency"
      else
        Except.ok
          (RateResponse.mk currencyUpper ((SATOSHIS_PER_BTC : Rat) / rateInFiat) now,
           warmRateCache cache rates now)

/-- `getExchangeRate`: fresh cache hit short-circuits; unsupported
currencies are rejected before any upstream call; otherwise the `try`
block runs and its `catch` falls back to the (possibly stale) entry
captured at the start, or rethrows a plain `Error` when there is none. -/
def getExchangeRate (fetchResult : Except String (List (String × Rat)))
    (now : Nat) (cache : RateCacheMap) (currency : String) :
    Except String RateResponse × RateCacheMap :=
  let currencyLower := strToLower currency
  let currencyUpper := strToUpper currency
  let cacheEntry := lookupRateCache cache currencyLower
  match cacheEntry with
  | some c =>
    if now - c.timestamp < RATE_CACHE_TTL_MS then (Except.ok c, cache)
    else
      if SUPPORTED_CURRENCIES.contains currencyLower = false then
        (Except.error "Unsupported currency", cache)
      else
        match rateTryBlock fetchResult now cache currencyLower currencyUpper with
        | Except.ok (resp, newCache) => (Except.ok resp, newCache)
        | Except.error _ => (Except.ok c, cache)
  | none =>
    if SUPPORTED_CURRENCIES.contains currencyLower = false then
      (Except.error "Unsupported currency", cache)
    else
      match rateTryBlock fetchResult now cache currencyLower currencyUpper with
      | Except.ok (resp, newCache) => (Except.ok resp, newCache)
      | Except.error msg =>
        (Except.error ("Failed to fetch exchange rate: " ++ msg), cache)

/-- The `GET /rate/:currency` handler from `protectedRoutes.ts`:
unsupported currency is a 400 validation `AppError`; any throw of
`getExchangeRate` is wrapped as a 404 notfound `AppError`. -/
def rateHandler (fetchResult : Except String (List (String × Rat)))
    (now : Nat) (cache : RateCacheMap) (currency : String) :
    Except AppError RateResponse × RateCacheMap :=
  if isSupportedCurrency currency = false then
    (Except.error (AppError.mk 400 ErrKind.VALIDATION_ERROR), cache)
  else
    match getExchangeRate fetchResult now cache currency with
    | (Except.ok r, c') => (Except.ok r, c')
    | (Except.error _, c') =>
      (Except.error (AppError.mk 404 ErrKind.NOTFOUND_ERROR), c')

/-! Concrete fixtures used by counterexamples and witnesses. -/

/-- A 64-character x-only public key hex string. -/
def xOnly64 : String :=
  "79be667ef9dcbbac55a06295ce870b07029bfcdb2dce28d959f2815b16f81798"

def pA : Proof := Proof.mk "idA" 1 "sa" "CA" none none

def pB : Proof := Proof.mk "idB" 2 "sb" "CB" none none

/-- A nip19 decoder that recognises one npub string. -/
def decodeW (s : String) : Except String Nip19Decoded :=
  if s = "npub1test" then Except.ok (Nip19Decoded.npub xOnly64)
  else Except.error "invalid bech32"

/-- A rate cache holding one stale usd entry. -/
def staleUsdEntry : RateResponse := RateResponse.mk "USD" 50 100

def staleUsdCache : RateCacheMap := [("usd", staleUsdEntry)]

/-- A mint whose quote check succeeds with a PAID quote and whose
minting call fails. -/
def paidQuoteW : MintQuoteResp :=
  MintQuoteResp.mk "q1" "lnbc1" MintQuoteState.PAID 3600 21

def mintDepositW : MintBehavior :=
  MintBehavior.mk
    (fun _ _ _ _ => Except.error (Thrown.error "unused"))
    (fun _ _ => Except.error (Thrown.error "unused"))
    (fun _ => Except.error (Thrown.error "unused"))
    (fun _ => Except.error (Thrown.error "unused"))
    (fun _ => Except.ok paidQuoteW)
    (fun _ _ => Except.error (Thrown.error "mint is down"))

/-- A PENDING row fixture for the reconciliation witness. -/
def rowSync (sec : String) : DbProof :=
  DbProof.mk 1 ("id-" ++ sec) 100 sec ("C-" ++ sec) none none ProofStatus.PENDING

def storeSyncW : Store := [rowSync "s1", rowSync "s2", rowSync "s3"]

def syncStatesW : List ProofStateEntry :=
  [ProofStateEntry.mk CheckStateEnum.SPENT, ProofStateEntry.mk CheckStateEnum.UNSPENT,
   ProofStateEntry.mk CheckStateEnum.PENDING]

def mintSyncW : MintBehavior :=
  MintBehavior.mk
    (fun _ _ _ _ => Except.error (Thrown.error "unused"))
    (fun _ _ => Except.error (Thrown.error "unused"))
    (fun _ => Except.error (Thrown.error "unused"))
    (fun _ => Except.ok syncStatesW)
    (fun _ => Except.error (Thrown.error "unused"))
    (fun _ _ => Except.error (Thrown.error "unused"))

/-- Send-happy fixtures: one UNSPENT input of 200, swap returns fresh
keep and send proofs of 100 each. -/
def sendInputRow : DbProof :=
  DbProof.mk 1 "id-s1" 200 "s1" "C-s1" none none ProofStatus.UNSPENT

def storeSendW : Store := [sendInputRow]

def keepW : Proof := Proof.mk "id-k1" 100 "k1" "C-k1" none none

def sendW : Proof := Proof.mk "id-send1" 100 "send1" "C-send1" none none

def mintSendW : MintBehavior :=
  MintBehavior.mk
    (fun _ _ _ _ => Except.ok (SendResult.mk [keepW] [sendW]))
    (fun _ _ => Except.error (Thrown.error "unused"))
    (fun _ => Except.error (Thrown.error "unused"))
    (fun _ => Except.error (Thrown.error "unused"))
    (fun _ => Except.error (Thrown.error "unused"))
    (fun _ _ => Except.error (Thrown.error "unused"))

/-- Melt fixtures: quote of 500 + 10 fee, one UNSPENT input of 1000,
swap splits into keep 490 and send 510, change proof of 5. -/
def meltQuoteW : MeltQuoteResp := MeltQuoteResp.mk "mq1" 500 10 MeltQuoteState.UNPAID

def meltInputRow : DbProof :=
  DbProof.mk 1 "id-m1" 1000 "m1" "C-m1" none none ProofStatus.UNSPENT

def storeMeltW : Store := [meltInputRow]

def keepMW : Proof := Proof.mk "id-mk1" 490 "mk1" "C-mk1" none none

def sendMW : Proof := Proof.mk "id-msend1" 510 "msend1" "C-msend1" none none

def changeMW : Proof := Proof.mk "id-ch1" 5 "ch1" "C-ch1" none none

def meltRespW : MeltResult :=
  MeltResult.mk (MeltQuoteResp.mk "mq1" 500 10 MeltQuoteState.PAID) [changeMW]

def mintMeltPaidW : MintBehavior :=
  MintBehavior.mk
    (fun _ _ _ _ => Except.ok (SendResult.mk [keepMW] [sendMW]))
    (fun _ _ => Except.ok meltRespW)
    (fun _ => Except.error (Thrown.error "unused"))
    (fun _ => Except.error (Thrown.error "unused"))
    (fun _ => Except.error (Thrown.error "unused"))
    (fun _ _ => Except.error (Thrown.error "unused"))

def mintMeltUnpaidW : MintBehavior :=
  MintBehavior.mk
    (fun _ _ _ _ => Except.ok (SendResult.mk [keepMW] [sendMW]))
    (fun _ _ => Except.error (Thrown.error "some generic error"))
    (fun _ => Except.ok meltQuoteW)
    (fun _ => Except.error (Thrown.error "unused"))
    (fun _ => Except.error (Thrown.error "unused"))
    (fun _ _ => Except.error (Thrown.error "unused"))

def mintMeltUnreachableW : MintBehavior :=
  MintBehavior.mk
    (fun _ _ _ _ => Except.ok (SendResult.mk [keepMW] [sendMW]))
    (fun _ _ => Except.error (Thrown.error "connection refused"))
    (fun _ => Except.error (Thrown.error "timeout"))
    (fun _ => Except.error (Thrown.error "unused"))
    (fun _ => Except.error (Thrown.error "unused"))
    (fun _ _ => Except.error (Thrown.error "unused"))

/-! Theorems. -/

/-- Helper: an update with an empty secret list does not change the
store. -/
theorem updateProofsStatus_nil (walletId : Nat) (status : ProofStatus)
    (s : Store) : updateProofsStatus walletId [] status s = s := by
  unfold updateProofsStatus
  induction s with
  | nil => rfl
  | cons r t ih =>
    simp only [List.map_cons] at ih ⊢
    rw [if_neg (by simp)]
    rw [ih]

/-- Helper: the length guard around `updateProofsStatus` is redundant. -/
theorem updateProofsStatus_guard (walletId : Nat) (secrets : List String)
    (status : ProofStatus) (s : Store) :
    (if secrets.length > 0 then updateProofsStatus walletId secrets status s else s) =
      updateProofsStatus walletId secrets status s := by
  cases secrets with
  | nil => simp [updateProofsStatus_nil]
  | cons a l => simp

/-- Helper: the length guard around `saveProofs` is redundant. -/
theorem saveProofs_guard (walletId : Nat) (proofs : List Proof)
    (status : ProofStatus) (s : Store) :
    (if proofs.length > 0 then saveProofs walletId proofs status s
     else DbOut.ok () s) = saveProofs walletId proofs status s := by
  cases proofs with
  | nil => simp [saveProofs]
  | cons p l => simp

/-- Helper: inserting proofs whose secrets are fresh for the store and
mutually distinct succeeds and appends their rows. -/
theorem saveProofs_ok (walletId : Nat) (proofs : List Proof)
    (status : ProofStatus) (s : Store)
    (hfresh : ∀ p ∈ proofs, p.secret ∉ s.map DbProof.secret)
    (hnodup : (proofs.map Proof.secret).Nodup) :
    saveProofs walletId proofs status s =
      DbOut.ok () (s ++ proofs.map (proofToRow walletId status)) := by
  induction proofs generalizing s with
  | nil => simp [saveProofs]
  | cons p rest ih =>
    have hp : (proofToRow walletId status p).secret ∉ s.map DbProof.secret := by
      simpa [proofToRow] using hfresh p (by simp)
    have hfresh' : ∀ q ∈ rest, q.secret ∉ (s ++ [proofToRow walletId status p]).map DbProof.secret := by
      intro q hq
      simp only [List.map_append, List.mem_append]
      rintro (h | h)
      · exact hfresh q (by simp [hq]) h
      · simp only [List.map_cons, List.map_nil, List.mem_singleton, proofToRow] at h
        have : p.secret ∈ rest.map Proof.secret := by
          simp only [List.mem_map]
          exact ⟨q, hq, h⟩
        simp only [List.map_cons, List.nodup_cons] at hnodup
        exact hnodup.1 this
    have hnodup' : (rest.map Proof.secret).Nodup := by
      simp only [List.map_cons, List.nodup_cons] at hnodup
      exact hnodup.2
    calc saveProofs walletId (p :: rest) status s
        = saveProofs walletId rest status (s ++ [proofToRow walletId status p]) := by
          simp [saveProofs, proofCreate, hp]
      _ = DbOut.ok () ((s ++ [proofToRow walletId status p]) ++ rest.map (proofToRow walletId status)) :=
          ih _ hfresh' hnodup'
      _ = DbOut.ok () (s ++ (p :: rest).map (proofToRow walletId status)) := by
          simp

/-- Helper: after an update, every row of the wallet whose secret is in
the list has the new status. -/
theorem updateProofsStatus_mem_status (walletId : Nat) (secrets : List String)
    (status : ProofStatus) (s : Store) (r : DbProof)
    (hr : r ∈ updateProofsStatus walletId secrets status s)
    (hw : r.walletId = walletId) (hs : r.secret ∈ secrets) :
    r.status = status := by
  unfold updateProofsStatus at hr
  simp only [List.mem_map] at hr
  obtain ⟨r₀, _, hr₀⟩ := hr
  by_cases hc : r₀.walletId = walletId ∧ r₀.secret ∈ secrets
  · rw [if_pos hc] at hr₀
    rw [← hr₀]
  · rw [if_neg hc] at hr₀
    subst hr₀
    exact absurd ⟨hw, hs⟩ hc

/-- Helper: an update keeps rows not selected by it unchanged. -/
theorem updateProofsStatus_not_mem (walletId : Nat) (secrets : List String)
    (status : ProofStatus) (s : Store) (r : DbProof) (hr : r ∈ s)
    (hc : ¬(r.walletId = walletId ∧ r.secret ∈ secrets)) :
    r ∈ updateProofsStatus walletId secrets status s := by
  unfold updateProofsStatus
  simp only [List.mem_map]
  exact ⟨r, hr, by rw [if_neg hc]⟩

/-- Helper: an update rewrites selected rows in place. -/
theorem updateProofsStatus_mem (walletId : Nat) (secrets : List String)
    (status : ProofStatus) (s : Store) (r : DbProof) (hr : r ∈ s)
    (hc : r.walletId = walletId ∧ r.secret ∈ secrets) :
    { r with status := status } ∈ updateProofsStatus walletId secrets status s := by
  unfold updateProofsStatus
  simp only [List.mem_map]
  exact ⟨r, hr, by rw [if_pos hc]⟩

/-- Helper: each row produced by an update stems from a store row with
the same identity, either untouched or restatused. -/
theorem updateProofsStatus_shape (walletId : Nat) (secrets : List String)
    (status : ProofStatus) (s : Store) (r' : DbProof)
    (h : r' ∈ updateProofsStatus walletId secrets status s) :
    ∃ r ∈ s, r'.walletId = r.walletId ∧ r'.secret = r.secret ∧
      ((r' = r ∧ ¬(r.walletId = walletId ∧ r.secret ∈ secrets)) ∨
       (r.walletId = walletId ∧ r.secret ∈ secrets ∧ r'.status = status)) := by
  unfold updateProofsStatus at h
  simp only [List.mem_map] at h
  obtain ⟨r, hr, heq⟩ := h
  by_cases hc : r.walletId = walletId ∧ r.secret ∈ secrets
  · rw [if_pos hc] at heq
    exact ⟨r, hr, by rw [← heq], by rw [← heq], Or.inr ⟨hc.1, hc.2, by rw [← heq]⟩⟩
  · rw [if_neg hc] at heq
    exact ⟨r, hr, by rw [heq], by rw [heq], Or.inl ⟨heq.symm, hc⟩⟩

/-- Helper: in a zip whose left list has no duplicates, a pair is
determined by its first component. -/
theorem zip_fst_inj {α β : Type} {l : List α} {m : List β} (hl : l.Nodup)
    {pr pr' : α × β} (h : pr ∈ l.zip m) (h' : pr' ∈ l.zip m)
    (he : pr.1 = pr'.1) : pr = pr' := by
  induction l generalizing m with
  | nil => simp at h
  | cons a l ih =>
    cases m with
    | nil => simp at h
    | cons b m =>
      obtain ⟨ha, hl'⟩ := List.nodup_cons.mp hl
      simp only [List.zip_cons_cons, List.mem_cons] at h h'
      rcases h with rfl | h
      · rcases h' with rfl | h'
        · rfl
        · have hm : pr'.1 ∈ l := (List.of_mem_zip h').1
          rw [← he] at hm
          exact absurd hm ha
      · rcases h' with rfl | h'
        · have hm : pr.1 ∈ l := (List.of_mem_zip h).1
          rw [he] at hm
          exact absurd hm ha
        · exact ih hl' h h'

/-- Helper: the secrets collected for one target state are exactly the
secrets of the zip pairs whose mint state is that target. -/
theorem mem_syncSecrets (pend : List Proof) (ms : List ProofStateEntry)
    (target : CheckStateEnum) (sec : String) :
    (sec ∈ (pend.zip ms).filterMap
      (fun pr => if pr.2.state = target then some pr.1.secret else none)) ↔
    ∃ pr ∈ pend.zip ms, pr.2.state = target ∧ pr.1.secret = sec := by
  simp only [List.mem_filterMap]
  constructor
  · rintro ⟨pr, hpr, hf⟩
    by_cases h : pr.2.state = target
    · rw [if_pos h] at hf
      exact ⟨pr, hpr, h, by injection hf⟩
    · rw [if_neg h] at hf
      cases hf
  · rintro ⟨pr, hpr, h, rfl⟩
    exact ⟨pr, hpr, by rw [if_pos h]⟩

/-- Helper: a pair whose mint state is not the target contributes no
secret to the target's list, provided the proofs have distinct
secrets. -/
theorem not_mem_syncSecrets (pend : List Proof) (ms : List ProofStateEntry)
    (hnd : (pend.map Proof.secret).Nodup) (target : CheckStateEnum)
    (pr : Proof × ProofStateEntry) (hpr : pr ∈ pend.zip ms)
    (hne : pr.2.state ≠ target) :
    pr.1.secret ∉ (pend.zip ms).filterMap
      (fun x => if x.2.state = target then some x.1.secret else none) := by
  rw [mem_syncSecrets]
  rintro ⟨pr', hpr', h', hsec⟩
  have h1 : pr'.1 ∈ pend := (List.of_mem_zip hpr').1
  have h2 : pr.1 ∈ pend := (List.of_mem_zip hpr).1
  have hfst : pr'.1 = pr.1 := List.inj_on_of_nodup_map hnd h1 h2 hsec
  have : pr' = pr := zip_fst_inj (hnd.of_map Proof.secret) hpr' hpr hfst
  rw [this] at h'
  exact hne h'

/-- Helper: with aligned lists, the collected secret count for a target
state is the number of mint answers carrying that state. -/
theorem syncSecrets_length (pend : List Proof) (ms : List ProofStateEntry)
    (hlen : ms.length = pend.length) (target : CheckStateEnum) :
    ((pend.zip ms).filterMap
      (fun pr => if pr.2.state = target then some pr.1.secret else none)).length =
    (ms.filter (fun st => decide (st.state = target))).length := by
  induction pend generalizing ms with
  | nil =>
    cases ms with
    | nil => simp
    | cons b m => simp at hlen
  | cons a l ih =>
    cases ms with
    | nil => simp at hlen
    | cons b m =>
      simp only [List.zip_cons_cons, List.filterMap_cons, List.filter_cons]
      by_cases hb : b.state = target
      · simp [hb, ih m (by simpa using hlen)]
      · simp [hb, ih m (by simpa using hlen)]

/-- Helper: every mint answer carries exactly one of the three states. -/
theorem filter_states_partition (ms : List ProofStateEntry) :
    (ms.filter (fun st => decide (st.state = CheckStateEnum.SPENT))).length +
    (ms.filter (fun st => decide (st.state = CheckStateEnum.PENDING))).length +
    (ms.filter (fun st => decide (st.state = CheckStateEnum.UNSPENT))).length =
    ms.length := by
  induction ms with
  | nil => simp
  | cons b m ih =>
    cases hb : b.state <;> simp [List.filter_cons, hb] <;> omega

/-- Helper: each proof loaded for a wallet and status comes from a store
row of that wallet and status. -/
theorem loadProofs_mem (walletId : Nat) (st' : ProofStatus) (s : Store)
    (p : Proof) (hp : p ∈ loadProofs walletId (some st') s) :
    ∃ r ∈ s, r.walletId = walletId ∧ r.status = st' ∧ r.secret = p.secret ∧
      r.amount = p.amount := by
  unfold loadProofs at hp
  simp only [Option.getD_some, List.mem_map, List.mem_filter,
    decide_eq_true_eq] at hp
  obtain ⟨r, ⟨hr, hw, hs⟩, heq⟩ := hp
  exact ⟨r, hr, hw, hs, by rw [← heq]; rfl, by rw [← heq]; rfl⟩

/-- Helper: loaded proofs inherit distinct secrets from the store. -/
theorem loadProofs_secrets_nodup (walletId : Nat) (st' : Option ProofStatus)
    (s : Store) (h : (s.map DbProof.secret).Nodup) :
    ((loadProofs walletId st' s).map Proof.secret).Nodup := by
  unfold loadProofs
  rw [List.map_map]
  have hfun : (Proof.secret ∘ rowToProof) = DbProof.secret := by
    funext r
    rfl
  rw [hfun]
  exact ((List.filter_sublist s).map DbProof.secret).nodup h

/-- Helper: the reconciliation run on a non-empty PENDING set with a
successful mint answer: the two status updates are applied and the
counts are the collected list lengths. -/
theorem sync_run_eq (mint : MintBehavior) (walletId : Nat) (s : Store)
    (mintStates : List ProofStateEntry)
    (hne : loadProofs walletId (some ProofStatus.PENDING) s ≠ [])
    (hck : mint.checkProofsStates (loadProofs walletId (some ProofStatus.PENDING) s) =
      Except.ok mintStates) :
    syncProofsStateWithMint mint walletId s =
      DbOut.ok
        (SyncResult.mk
          (((loadProofs walletId (some ProofStatus.PENDING) s).zip mintStates).filterMap
            (fun pr => if pr.2.state = CheckStateEnum.SPENT then some pr.1.secret else none)).length
          ((loadProofs walletId (some ProofStatus.PENDING) s).length -
            (((loadProofs walletId (some ProofStatus.PENDING) s).zip mintStates).filterMap
              (fun pr => if pr.2.state = CheckStateEnum.SPENT then some pr.1.secret else none)).length -
            (((loadProofs walletId (some ProofStatus.PENDING) s).zip mintStates).filterMap
              (fun pr => if pr.2.state = CheckStateEnum.UNSPENT then some pr.1.secret else none)).length)
          (((loadProofs walletId (some ProofStatus.PENDING) s).zip mintStates).filterMap
            (fun pr => if pr.2.state = CheckStateEnum.UNSPENT then some pr.1.secret else none)).length)
        (updateProofsStatus walletId
          (((loadProofs walletId (some ProofStatus.PENDING) s).zip mintStates).filterMap
            (fun pr => if pr.2.state = CheckStateEnum.UNSPENT then some pr.1.secret else none))
          ProofStatus.UNSPENT
          (updateProofsStatus walletId
            (((loadProofs walletId (some ProofStatus.PENDING) s).zip mintStates).filterMap
              (fun pr => if pr.2.state = CheckStateEnum.SPENT then some pr.1.secret else none))
            ProofStatus.SPENT s)) := by
  simp only [syncProofsStateWithMint, hck]
  rw [if_neg (by simpa [List.length_eq_zero] using hne)]
  rw [updateProofsStatus_guard, updateProofsStatus_guard]

/-- Helper: a status update never changes the secret column. -/
theorem updateProofsStatus_secrets (walletId : Nat) (secrets : List String)
    (status : ProofStatus) (s : Store) :
    (updateProofsStatus walletId secrets status s).map DbProof.secret =
      s.map DbProof.secret := by
  unfold updateProofsStatus
  rw [List.map_map]
  apply List.map_congr_left
  intro r _
  by_cases hc : r.walletId = walletId ∧ r.secret ∈ secrets
  · rw [Function.comp_apply, if_pos hc]
  · rw [Function.comp_apply, if_neg hc]

/-- Helper: rows built from proofs carry the proofs' secrets. -/
theorem proofToRow_secrets (walletId : Nat) (status : ProofStatus)
    (ps : List Proof) :
    (ps.map (proofToRow walletId status)).map DbProof.secret =
      ps.map Proof.secret := by
  rw [List.map_map]
  apply List.map_congr_left
  intro p _
  rfl

/-- Helper: the full run of `sendProofs` when the balance suffices, the
swap succeeds and the swap outputs are fresh-or-verbatim with distinct
secrets: swapped inputs are set SPENT, the genuinely new keep and send
proofs are appended UNSPENT resp. PENDING, and inputs returned in `send`
are set PENDING. -/
theorem sendProofs_run_eq (mint : MintBehavior) (walletId : Nat) (amount : Nat)
    (p2pkPubkey : Option String) (s : Store) (keep send : List Proof)
    (hbal : ¬ getProofsAmount (loadProofs walletId none s) < amount)
    (hswap : mint.send amount (loadProofs walletId none s) true
      (p2pkPubkey.map OutputConfig.mk) = Except.ok (SendResult.mk keep send))
    (hfreshOut : ∀ p ∈ keep ++ send,
      p.secret ∉ (loadProofs walletId none s).map Proof.secret →
      p.secret ∉ s.map DbProof.secret)
    (hnodupOut : ((keep ++ send).map Proof.secret).Nodup) :
    sendProofs mint walletId amount p2pkPubkey s =
      DbOut.ok (SendResult.mk keep send)
        (updateProofsStatus walletId
          ((send.map Proof.secret).filter
            (fun x => decide (x ∈ (loadProofs walletId none s).map Proof.secret)))
          ProofStatus.PENDING
          (((updateProofsStatus walletId
              (((loadProofs walletId none s).map Proof.secret).filter
                (fun x => decide (x ∉ keep.map Proof.secret ++ send.map Proof.secret)))
              ProofStatus.SPENT s) ++
            (keep.filter
              (fun p => decide (p.secret ∉ (loadProofs walletId none s).map Proof.secret))).map
              (proofToRow walletId ProofStatus.UNSPENT)) ++
           (send.filter
              (fun p => decide (p.secret ∉ (loadProofs walletId none s).map Proof.secret))).map
              (proofToRow walletId ProofStatus.PENDING))) := by
  have hmapnd : (keep.map Proof.secret ++ send.map Proof.secret).Nodup := by
    rw [← List.map_append]
    exact hnodupOut
  rw [List.nodup_append] at hmapnd
  obtain ⟨hndk, hnds, hdisj⟩ := hmapnd
  have hs1sec : (updateProofsStatus walletId
      (((loadProofs walletId none s).map Proof.secret).filter
        (fun x => decide (x ∉ keep.map Proof.secret ++ send.map Proof.secret)))
      ProofStatus.SPENT s).map DbProof.secret = s.map DbProof.secret :=
    updateProofsStatus_secrets _ _ _ _
  have hk1 : saveProofs walletId
      (keep.filter
        (fun p => decide (p.secret ∉ (loadProofs walletId none s).map Proof.secret)))
      ProofStatus.UNSPENT
      (updateProofsStatus walletId
        (((loadProofs walletId none s).map Proof.secret).filter
          (fun x => decide (x ∉ keep.map Proof.secret ++ send.map Proof.secret)))
        ProofStatus.SPENT s) =
      DbOut.ok ()
        ((updateProofsStatus walletId
          (((loadProofs walletId none s).map Proof.secret).filter
            (fun x => decide (x ∉ keep.map Proof.secret ++ send.map Proof.secret)))
          ProofStatus.SPENT s) ++
         (keep.filter
           (fun p => decide (p.secret ∉ (loadProofs walletId none s).map Proof.secret))).map
           (proofToRow walletId ProofStatus.UNSPENT)) := by
    apply saveProofs_ok
    · intro p hp
      rw [List.mem_filter, decide_eq_true_eq] at hp
      rw [hs1sec]
      exact hfreshOut p (by simp [hp.1]) hp.2
    · exact ((List.filter_sublist keep).map Proof.secret).nodup hndk
  have hk2 : saveProofs walletId
      (send.filter
        (fun p => decide (p.secret ∉ (loadProofs walletId none s).map Proof.secret)))
      ProofStatus.PENDING
      ((updateProofsStatus walletId
          (((loadProofs walletId none s).map Proof.secret).filter
            (fun x => decide (x ∉ keep.map Proof.secret ++ send.map Proof.secret)))
          ProofStatus.SPENT s) ++
       (keep.filter
         (fun p => decide (p.secret ∉ (loadProofs walletId none s).map Proof.secret))).map
         (proofToRow walletId ProofStatus.UNSPENT)) =
      DbOut.ok ()
        (((updateProofsStatus walletId
            (((loadProofs walletId none s).map Proof.secret).filter
              (fun x => decide (x ∉ keep.map Proof.secret ++ send.map Proof.secret)))
            ProofStatus.SPENT s) ++
          (keep.filter
            (fun p => decide (p.secret ∉ (loadProofs walletId none s).map Proof.secret))).map
            (proofToRow walletId ProofStatus.UNSPENT)) ++
         (send.filter
           (fun p => decide (p.secret ∉ (loadProofs walletId none s).map Proof.secret))).map
           (proofToRow walletId ProofStatus.PENDING)) := by
    apply saveProofs_ok
    · intro p hp
      rw [List.mem_filter, decide_eq_true_eq] at hp
      rw [List.map_append, hs1sec, proofToRow_secrets]
      simp only [List.mem_append]
      rintro (h | h)
      · exact hfreshOut p (by simp [hp.1]) hp.2 h
      · obtain ⟨q, hq, hqs⟩ := List.mem_map.mp h
        have hqk : q ∈ keep := (List.mem_filter.mp hq).1
        have hks : p.secret ∈ keep.map Proof.secret := by
          rw [← hqs]
          exact List.mem_map_of_mem Proof.secret hqk
        exact hdisj hks (List.mem_map_of_mem Proof.secret hp.1)
    · exact ((List.filter_sublist send).map Proof.secret).nodup hnds
  simp only [sendProofs, hswap]
  rw [if_neg hbal]
  rw [updateProofsStatus_guard, saveProofs_guard, hk1]
  dsimp only
  rw [saveProofs_guard, hk2]
  dsimp only
  rw [updateProofsStatus_guard]

/-- C1: a successful `sendProofs` run classifies the inputs exactly as
specified: every input proof whose secret does not reappear in
`keep ∪ send` is marked SPENT; every keep proof with a fresh secret is
inserted UNSPENT; every send proof with a fresh secret is inserted
PENDING; every send proof whose secret was among the inputs has its
existing rows set to PENDING; the call returns the swap's
`{keep, send}` pair; and the store's secret column gains exactly the
non-input output secrets, so no proof with an input secret is ever
re-inserted. -/
theorem sendProofs_spec (mint : MintBehavior) (walletId : Nat) (amount : Nat)
    (p2pkPubkey : Option String) (s : Store) (keep send : List Proof)
    (hbal : ¬ getProofsAmount (loadProofs walletId none s) < amount)
    (hswap : mint.send amount (loadProofs walletId none s) true
      (p2pkPubkey.map OutputConfig.mk) = Except.ok (SendResult.mk keep send))
    (hfreshOut : ∀ p ∈ keep ++ send,
      p.secret ∉ (loadProofs walletId none s).map Proof.secret →
      p.secret ∉ s.map DbProof.secret)
    (hnodupOut : ((keep ++ send).map Proof.secret).Nodup) :
    ∃ s',
      sendProofs mint walletId amount p2pkPubkey s =
        DbOut.ok (SendResult.mk keep send) s' ∧
      (∀ p ∈ loadProofs walletId none s,
        p.secret ∉ keep.map Proof.secret ++ send.map Proof.secret →
        (∃ r ∈ s', r.walletId = walletId ∧ r.secret = p.secret ∧
          r.status = ProofStatus.SPENT) ∧
        ∀ r ∈ s', r.walletId = walletId → r.secret = p.secret →
          r.status = ProofStatus.SPENT) ∧
      (∀ p ∈ keep, p.secret ∉ (loadProofs walletId none s).map Proof.secret →
        proofToRow walletId ProofStatus.UNSPENT p ∈ s') ∧
      (∀ p ∈ send, p.secret ∉ (loadProofs walletId none s).map Proof.secret →
        proofToRow walletId ProofStatus.PENDING p ∈ s') ∧
      (∀ p ∈ send, p.secret ∈ (loadProofs walletId none s).map Proof.secret →
        (∃ r ∈ s', r.walletId = walletId ∧ r.secret = p.secret ∧
          r.status = ProofStatus.PENDING) ∧
        ∀ r ∈ s', r.walletId = walletId → r.secret = p.secret →
          r.status = ProofStatus.PENDING) ∧
      s'.map DbProof.secret =
        s.map DbProof.secret ++
        (keep.filter
          (fun p => decide (p.secret ∉ (loadProofs walletId none s).map Proof.secret))).map
          Proof.secret ++
        (send.filter
          (fun p => decide (p.secret ∉ (loadProofs walletId none s).map Proof.secret))).map
          Proof.secret := by
  have hrun := sendProofs_run_eq mint walletId amount p2pkPubkey s keep send
    hbal hswap hfreshOut hnodupOut
  refine ⟨_, hrun, ?_, ?_, ?_, ?_, ?_⟩
  · -- swapped inputs are SPENT
    intro p hp hnr
    obtain ⟨r, hr, hw, hst, hsec, _⟩ := loadProofs_mem walletId ProofStatus.UNSPENT s p hp
    have hswapped : p.secret ∈
        ((loadProofs walletId none s).map Proof.secret).filter
          (fun x => decide (x ∉ keep.map Proof.secret ++ send.map Proof.secret)) := by
      rw [List.mem_filter, decide_eq_true_eq]
      exact ⟨List.mem_map_of_mem Proof.secret hp, hnr⟩
    constructor
    · have h1 := updateProofsStatus_mem walletId _ ProofStatus.SPENT s r hr
        ⟨hw, by rw [hsec]; exact hswapped⟩
      have h3 : ({ r with status := ProofStatus.SPENT }) ∈
          ((updateProofsStatus walletId
              (((loadProofs walletId none s).map Proof.secret).filter
                (fun x => decide (x ∉ keep.map Proof.secret ++ send.map Proof.secret)))
              ProofStatus.SPENT s) ++
            (keep.filter
              (fun p => decide (p.secret ∉ (loadProofs walletId none s).map Proof.secret))).map
              (proofToRow walletId ProofStatus.UNSPENT)) ++
           (send.filter
              (fun p => decide (p.secret ∉ (loadProofs walletId none s).map Proof.secret))).map
              (proofToRow walletId ProofStatus.PENDING) :=
        List.mem_append_left _ (List.mem_append_left _ h1)
      have h4 := updateProofsStatus_not_mem walletId
        ((send.map Proof.secret).filter
          (fun x => decide (x ∈ (loadProofs walletId none s).map Proof.secret)))
        ProofStatus.PENDING _ _ h3
        (by
          rintro ⟨_, hin⟩
          rw [List.mem_filter] at hin
          have : r.secret ∈ send.map Proof.secret := hin.1
          rw [hsec] at this
          exact hnr (List.mem_append.mpr (Or.inr this)))
      exact ⟨{ r with status := ProofStatus.SPENT }, h4, hw, hsec, rfl⟩
    · intro r' hr' hw' hsec'
      obtain ⟨r1, hr1, hweq, hseq, hcase⟩ :=
        updateProofsStatus_shape walletId _ ProofStatus.PENDING _ r' hr'
      rcases hcase with ⟨req, _⟩ | ⟨_, hin, _⟩
      · -- r' untouched by the final update: it is the SPENT-updated row
        rw [req]
        have hr1' : r1 ∈ (updateProofsStatus walletId
            (((loadProofs walletId none s).map Proof.secret).filter
              (fun x => decide (x ∉ keep.map Proof.secret ++ send.map Proof.secret)))
            ProofStatus.SPENT s) := by
          rcases List.mem_append.mp hr1 with h01 | h
          rcases List.mem_append.mp h01 with h | h
          · exact h
          · exfalso
            obtain ⟨q, hq, hqe⟩ := List.mem_map.mp h
            rw [List.mem_filter, decide_eq_true_eq] at hq
            have : r1.secret = q.secret := by rw [← hqe]; rfl
            have hqr : q.secret ∈ keep.map Proof.secret ++ send.map Proof.secret :=
              List.mem_append.mpr (Or.inl (List.mem_map_of_mem Proof.secret hq.1))
            rw [← this, ← hseq, hsec'] at hqr
            exact hnr hqr
          · exfalso
            obtain ⟨q, hq, hqe⟩ := List.mem_map.mp h
            rw [List.mem_filter, decide_eq_true_eq] at hq
            have : r1.secret = q.secret := by rw [← hqe]; rfl
            have hqr : q.secret ∈ keep.map Proof.secret ++ send.map Proof.secret :=
              List.mem_append.mpr (Or.inr (List.mem_map_of_mem Proof.secret hq.1))
            rw [← this, ← hseq, hsec'] at hqr
            exact hnr hqr
        exact updateProofsStatus_mem_status walletId _ ProofStatus.SPENT s r1 hr1'
          (by rw [← hweq, hw'])
          (by
            rw [← hseq, hsec', List.mem_filter, decide_eq_true_eq]
            exact ⟨List.mem_map_of_mem Proof.secret hp, hnr⟩)
      · exfalso
        rw [List.mem_filter] at hin
        have : r1.secret ∈ send.map Proof.secret := hin.1
        rw [← hseq, hsec'] at this
        exact hnr (List.mem_append.mpr (Or.inr this))
  · -- fresh keep proofs are inserted UNSPENT
    intro p hp hfr
    have hmem : proofToRow walletId ProofStatus.UNSPENT p ∈
        (keep.filter
          (fun q => decide (q.secret ∉ (loadProofs walletId none s).map Proof.secret))).map
          (proofToRow walletId ProofStatus.UNSPENT) :=
      List.mem_map_of_mem _ (List.mem_filter.mpr ⟨hp, by rw [decide_eq_true_eq]; exact hfr⟩)
    apply updateProofsStatus_not_mem
    · exact List.mem_append_left _ (List.mem_append_right _ hmem)
    · rintro ⟨_, hin⟩
      rw [List.mem_filter, decide_eq_true_eq] at hin
      have : (proofToRow walletId ProofStatus.UNSPENT p).secret = p.secret := rfl
      rw [this] at hin
      exact hfr hin.2
  · -- fresh send proofs are inserted PENDING
    intro p hp hfr
    have hmem : proofToRow walletId ProofStatus.PENDING p ∈
        (send.filter
          (fun q => decide (q.secret ∉ (loadProofs walletId none s).map Proof.secret))).map
          (proofToRow walletId ProofStatus.PENDING) :=
      List.mem_map_of_mem _ (List.mem_filter.mpr ⟨hp, by rw [decide_eq_true_eq]; exact hfr⟩)
    apply updateProofsStatus_not_mem
    · exact List.mem_append_right _ hmem
    · rintro ⟨_, hin⟩
      rw [List.mem_filter, decide_eq_true_eq] at hin
      have : (proofToRow walletId ProofStatus.PENDING p).secret = p.secret := rfl
      rw [this] at hin
      exact hfr hin.2
  · -- send proofs returned verbatim get their rows set PENDING
    intro p hp hin
    have hsel : p.secret ∈
        (send.map Proof.secret).filter
          (fun x => decide (x ∈ (loadProofs walletId none s).map Proof.secret)) := by
      rw [List.mem_filter, decide_eq_true_eq]
      exact ⟨List.mem_map_of_mem Proof.secret hp, hin⟩
    constructor
    · obtain ⟨q, hq, hqs⟩ := List.mem_map.mp hin
      obtain ⟨r, hr, hw, hst, hsec, _⟩ := loadProofs_mem walletId ProofStatus.UNSPENT s q hq
      have h1 := updateProofsStatus_not_mem walletId
        (((loadProofs walletId none s).map Proof.secret).filter
          (fun x => decide (x ∉ keep.map Proof.secret ++ send.map Proof.secret)))
        ProofStatus.SPENT s r hr
        (by
          rintro ⟨_, hmem⟩
          rw [List.mem_filter, decide_eq_true_eq] at hmem
          apply hmem.2
          rw [hsec, hqs]
          exact List.mem_append.mpr (Or.inr (List.mem_map_of_mem Proof.secret hp)))
      have h3 : r ∈ ((updateProofsStatus walletId
            (((loadProofs walletId none s).map Proof.secret).filter
              (fun x => decide (x ∉ keep.map Proof.secret ++ send.map Proof.secret)))
            ProofStatus.SPENT s) ++
          (keep.filter
            (fun x => decide (x.secret ∉ (loadProofs walletId none s).map Proof.secret))).map
            (proofToRow walletId ProofStatus.UNSPENT)) ++
         (send.filter
            (fun x => decide (x.secret ∉ (loadProofs walletId none s).map Proof.secret))).map
            (proofToRow walletId ProofStatus.PENDING) :=
        List.mem_append_left _ (List.mem_append_left _ h1)
      have h4 := updateProofsStatus_mem walletId
        ((send.map Proof.secret).filter
          (fun x => decide (x ∈ (loadProofs walletId none s).map Proof.secret)))
        ProofStatus.PENDING _ r h3 ⟨hw, by rw [hsec, hqs]; exact hsel⟩
      exact ⟨{ r with status := ProofStatus.PENDING }, h4, hw, by rw [← hqs, ← hsec], rfl⟩
    · intro r' hr' hw' hsec'
      obtain ⟨r1, hr1, hweq, hseq, hcase⟩ :=
        updateProofsStatus_shape walletId _ ProofStatus.PENDING _ r' hr'
      rcases hcase with ⟨_, hnc⟩ | ⟨_, _, hstq⟩
      · exact absurd ⟨by rw [← hweq, hw'], by rw [← hseq, hsec']; exact hsel⟩ hnc
      · exact hstq
  · -- the secret column gains exactly the non-input output secrets
    rw [updateProofsStatus_secrets, List.map_append, List.map_append,
      updateProofsStatus_secrets, proofToRow_secrets, proofToRow_secrets]

/-- C1 witness: the theorem applied to the send-happy scenario — one
UNSPENT input of 200, swap yields fresh keep/send proofs of 100. -/
theorem sendProofs_spec_witness :
    ∃ s', sendProofs mintSendW 1 100 none storeSendW =
      DbOut.ok (SendResult.mk [keepW] [sendW]) s' := by
  obtain ⟨s', hrun, -, -, -, -, -⟩ :=
    sendProofs_spec mintSendW 1 100 none storeSendW [keepW] [sendW]
      (by decide) rfl (by decide) (by decide)
  exact ⟨s', hrun⟩

/-- Helper: phase A of `meltProofs` (reserve via swap and persist the
split) under sufficient balance, a successful swap and
fresh-or-verbatim outputs with distinct secrets: it reduces the run to
the melt attempt on the reserved store. -/
theorem melt_phaseA_eq (mint : MintBehavior) (walletId : Nat)
    (meltQuote : MeltQuoteResp) (s : Store) (keep send : List Proof)
    (hbal : ¬ getProofsAmount (loadProofs walletId none s) <
      meltQuote.amount + meltQuote.fee_reserve)
    (hswap : mint.send (meltQuote.amount + meltQuote.fee_reserve)
      (loadProofs walletId none s) false none = Except.ok (SendResult.mk keep send))
    (hfreshOut : ∀ p ∈ keep ++ send,
      p.secret ∉ (loadProofs walletId none s).map Proof.secret →
      p.secret ∉ s.map DbProof.secret)
    (hnodupOut : ((keep ++ send).map Proof.secret).Nodup) :
    meltProofs mint walletId meltQuote s =
      meltAttempt mint walletId meltQuote (send.map Proof.secret) send
        ((updateProofsStatus walletId
          ((send.map Proof.secret).filter
            (fun x => decide (x ∈ (loadProofs walletId none s).map Proof.secret)))
          ProofStatus.PENDING
          ((updateProofsStatus walletId
              (((loadProofs walletId none s).map Proof.secret).filter
                (fun x => decide (x ∉ keep.map Proof.secret ++ send.map Proof.secret)))
              ProofStatus.SPENT s) ++
            (keep.filter
              (fun p => decide (p.secret ∉ (loadProofs walletId none s).map Proof.secret))).map
              (proofToRow walletId ProofStatus.UNSPENT))) ++
         (send.filter
            (fun p => decide (p.secret ∉ (loadProofs walletId none s).map Proof.secret))).map
            (proofToRow walletId ProofStatus.PENDING)) := by
  have hmapnd : (keep.map Proof.secret ++ send.map Proof.secret).Nodup := by
    rw [← List.map_append]
    exact hnodupOut
  rw [List.nodup_append] at hmapnd
  obtain ⟨hndk, hnds, hdisj⟩ := hmapnd
  have hs1sec : (updateProofsStatus walletId
      (((loadProofs walletId none s).map Proof.secret).filter
        (fun x => decide (x ∉ keep.map Proof.secret ++ send.map Proof.secret)))
      ProofStatus.SPENT s).map DbProof.secret = s.map DbProof.secret :=
    updateProofsStatus_secrets _ _ _ _
  have hk1 : saveProofs walletId
      (keep.filter
        (fun p => decide (p.secret ∉ (loadProofs walletId none s).map Proof.secret)))
      ProofStatus.UNSPENT
      (updateProofsStatus walletId
        (((loadProofs walletId none s).map Proof.secret).filter
          (fun x => decide (x ∉ keep.map Proof.secret ++ send.map Proof.secret)))
        ProofStatus.SPENT s) =
      DbOut.ok ()
        ((updateProofsStatus walletId
          (((loadProofs walletId none s).map Proof.secret).filter
            (fun x => decide (x ∉ keep.map Proof.secret ++ send.map Proof.secret)))
          ProofStatus.SPENT s) ++
         (keep.filter
           (fun p => decide (p.secret ∉ (loadProofs walletId none s).map Proof.secret))).map
           (proofToRow walletId ProofStatus.UNSPENT)) := by
    apply saveProofs_ok
    · intro p hp
      rw [List.mem_filter, decide_eq_true_eq] at hp
      rw [hs1sec]
      exact hfreshOut p (by simp [hp.1]) hp.2
    · exact ((List.filter_sublist keep).map Proof.secret).nodup hndk
  have hk2 : saveProofs walletId
      (send.filter
        (fun p => decide (p.secret ∉ (loadProofs walletId none s).map Proof.secret)))
      ProofStatus.PENDING
      (updateProofsStatus walletId
        ((send.map Proof.secret).filter
          (fun x => decide (x ∈ (loadProofs walletId none s).map Proof.secret)))
        ProofStatus.PENDING
        ((updateProofsStatus walletId
            (((loadProofs walletId none s).map Proof.secret).filter
              (fun x => decide (x ∉ keep.map Proof.secret ++ send.map Proof.secret)))
            ProofStatus.SPENT s) ++
          (keep.filter
            (fun p => decide (p.secret ∉ (loadProofs walletId none s).map Proof.secret))).map
            (proofToRow walletId ProofStatus.UNSPENT))) =
      DbOut.ok ()
        ((updateProofsStatus walletId
          ((send.map Proof.secret).filter
            (fun x => decide (x ∈ (loadProofs walletId none s).map Proof.secret)))
          ProofStatus.PENDING
          ((updateProofsStatus walletId
              (((loadProofs walletId none s).map Proof.secret).filter
                (fun x => decide (x ∉ keep.map Proof.secret ++ send.map Proof.secret)))
              ProofStatus.SPENT s) ++
            (keep.filter
              (fun p => decide (p.secret ∉ (loadProofs walletId none s).map Proof.secret))).map
              (proofToRow walletId ProofStatus.UNSPENT))) ++
         (send.filter
           (fun p => decide (p.secret ∉ (loadProofs walletId none s).map Proof.secret))).map
           (proofToRow walletId ProofStatus.PENDING)) := by
    apply saveProofs_ok
    · intro p hp
      rw [List.mem_filter, decide_eq_true_eq] at hp
      rw [updateProofsStatus_secrets, List.map_append, hs1sec, proofToRow_secrets]
      simp only [List.mem_append]
      rintro (h | h)
      · exact hfreshOut p (by simp [hp.1]) hp.2 h
      · obtain ⟨q, hq, hqs⟩ := List.mem_map.mp h
        have hqk : q ∈ keep := (List.mem_filter.mp hq).1
        have hks : p.secret ∈ keep.map Proof.secret := by
          rw [← hqs]
          exact List.mem_map_of_mem Proof.secret hqk
        exact hdisj hks (List.mem_map_of_mem Proof.secret hp.1)
    · exact ((List.filter_sublist send).map Proof.secret).nodup hnds
  simp only [meltProofs, hswap]
  rw [if_neg hbal]
  rw [updateProofsStatus_guard, saveProofs_guard, hk1]
  dsimp only
  rw [updateProofsStatus_guard, saveProofs_guard, hk2]

/-- Helper: after phase A and a status update of all the reserved
secrets, every reserved send secret has a row of the wallet carrying
that status. -/
theorem melt_reserved_status_exists (walletId : Nat) (s : Store)
    (keep send : List Proof) (stF : ProofStatus) (sec : String)
    (hsec : sec ∈ send.map Proof.secret) :
    ∃ r ∈ updateProofsStatus walletId (send.map Proof.secret) stF
        ((updateProofsStatus walletId
          ((send.map Proof.secret).filter
            (fun x => decide (x ∈ (loadProofs walletId none s).map Proof.secret)))
          ProofStatus.PENDING
          ((updateProofsStatus walletId
              (((loadProofs walletId none s).map Proof.secret).filter
                (fun x => decide (x ∉ keep.map Proof.secret ++ send.map Proof.secret)))
              ProofStatus.SPENT s) ++
            (keep.filter
              (fun p => decide (p.secret ∉ (loadProofs walletId none s).map Proof.secret))).map
              (proofToRow walletId ProofStatus.UNSPENT))) ++
         (send.filter
            (fun p => decide (p.secret ∉ (loadProofs walletId none s).map Proof.secret))).map
            (proofToRow walletId ProofStatus.PENDING)),
      r.walletId = walletId ∧ r.secret = sec ∧ r.status = stF := by
  by_cases hin : sec ∈ (loadProofs walletId none s).map Proof.secret
  · obtain ⟨q, hq, hqs⟩ := List.mem_map.mp hin
    obtain ⟨r, hr, hw, hst, hrsec, _⟩ :=
      loadProofs_mem walletId ProofStatus.UNSPENT s q hq
    have h1 := updateProofsStatus_not_mem walletId
      (((loadProofs walletId none s).map Proof.secret).filter
        (fun x => decide (x ∉ keep.map Proof.secret ++ send.map Proof.secret)))
      ProofStatus.SPENT s r hr
      (by
        rintro ⟨_, hmem⟩
        rw [List.mem_filter, decide_eq_true_eq] at hmem
        apply hmem.2
        rw [hrsec, hqs]
        exact List.mem_append.mpr (Or.inr hsec))
    have h1b : r ∈ (updateProofsStatus walletId
        (((loadProofs walletId none s).map Proof.secret).filter
          (fun x => decide (x ∉ keep.map Proof.secret ++ send.map Proof.secret)))
        ProofStatus.SPENT s) ++
        (keep.filter
          (fun p => decide (p.secret ∉ (loadProofs walletId none s).map Proof.secret))).map
          (proofToRow walletId ProofStatus.UNSPENT) :=
      List.mem_append_left _ h1
    have h2 := updateProofsStatus_mem walletId
      ((send.map Proof.secret).filter
        (fun x => decide (x ∈ (loadProofs walletId none s).map Proof.secret)))
      ProofStatus.PENDING _ r h1b
      ⟨hw, by
        rw [hrsec, hqs, List.mem_filter, decide_eq_true_eq]
        exact ⟨hsec, hin⟩⟩
    have h2b : ({ r with status := ProofStatus.PENDING }) ∈
        (updateProofsStatus walletId
          ((send.map Proof.secret).filter
            (fun x => decide (x ∈ (loadProofs walletId none s).map Proof.secret)))
          ProofStatus.PENDING
          ((updateProofsStatus walletId
              (((loadProofs walletId none s).map Proof.secret).filter
                (fun x => decide (x ∉ keep.map Proof.secret ++ send.map Proof.secret)))
              ProofStatus.SPENT s) ++
            (keep.filter
              (fun p => decide (p.secret ∉ (loadProofs walletId none s).map Proof.secret))).map
              (proofToRow walletId ProofStatus.UNSPENT))) ++
         (send.filter
            (fun p => decide (p.secret ∉ (loadProofs walletId none s).map Proof.secret))).map
            (proofToRow walletId ProofStatus.PENDING) :=
      List.mem_append_left _ h2
    have h3 := updateProofsStatus_mem walletId (send.map Proof.secret)
      stF _ _ h2b
      ⟨hw, by rw [hrsec, hqs]; exact hsec⟩
    exact ⟨_, h3, hw, by rw [hrsec, hqs], rfl⟩
  · obtain ⟨q, hq, hqs⟩ := List.mem_map.mp hsec
    have hrow : proofToRow walletId ProofStatus.PENDING q ∈
        (send.filter
          (fun p => decide (p.secret ∉ (loadProofs walletId none s).map Proof.secret))).map
          (proofToRow walletId ProofStatus.PENDING) :=
      List.mem_map_of_mem _ (List.mem_filter.mpr ⟨hq,
        by rw [decide_eq_true_eq, hqs]; exact hin⟩)
    have hrowb : proofToRow walletId ProofStatus.PENDING q ∈
        (updateProofsStatus walletId
          ((send.map Proof.secret).filter
            (fun x => decide (x ∈ (loadProofs walletId none s).map Proof.secret)))
          ProofStatus.PENDING
          ((updateProofsStatus walletId
              (((loadProofs walletId none s).map Proof.secret).filter
                (fun x => decide (x ∉ keep.map Proof.secret ++ send.map Proof.secret)))
              ProofStatus.SPENT s) ++
            (keep.filter
              (fun p => decide (p.secret ∉ (loadProofs walletId none s).map Proof.secret))).map
              (proofToRow walletId ProofStatus.UNSPENT))) ++
         (send.filter
            (fun p => decide (p.secret ∉ (loadProofs walletId none s).map Proof.secret))).map
            (proofToRow walletId ProofStatus.PENDING) :=
      List.mem_append_right _ hrow
    have h3 := updateProofsStatus_mem walletId (send.map Proof.secret)
      stF _ _ hrowb
      ⟨rfl, by
        have : (proofToRow walletId ProofStatus.PENDING q).secret = q.secret := rfl
        rw [this, hqs]
        exact hsec⟩
    exact ⟨_, h3, rfl, by rw [← hqs]; rfl, rfl⟩

/-- C2: whether the mint's melt succeeds directly or throws while the
re-check reports PAID, `meltProofs` returns success, every secret of the
reserved send bundle is marked SPENT, and in the re-check case the
returned value is the checked quote with an empty change list. -/
theorem meltProofs_paid_spec (mint : MintBehavior) (walletId : Nat)
    (meltQuote : MeltQuoteResp) (s : Store) (keep send : List Proof)
    (sA : Store)
    (hbal : ¬ getProofsAmount (loadProofs walletId none s) <
      meltQuote.amount + meltQuote.fee_reserve)
    (hswap : mint.send (meltQuote.amount + meltQuote.fee_reserve)
      (loadProofs walletId none s) false none = Except.ok (SendResult.mk keep send))
    (hfreshOut : ∀ p ∈ keep ++ send,
      p.secret ∉ (loadProofs walletId none s).map Proof.secret →
      p.secret ∉ s.map DbProof.secret)
    (hnodupOut : ((keep ++ send).map Proof.secret).Nodup)
    (hsA : sA =
      (updateProofsStatus walletId
        ((send.map Proof.secret).filter
          (fun x => decide (x ∈ (loadProofs walletId none s).map Proof.secret)))
        ProofStatus.PENDING
        ((updateProofsStatus walletId
            (((loadProofs walletId none s).map Proof.secret).filter
              (fun x => decide (x ∉ keep.map Proof.secret ++ send.map Proof.secret)))
            ProofStatus.SPENT s) ++
          (keep.filter
            (fun p => decide (p.secret ∉ (loadProofs walletId none s).map Proof.secret))).map
            (proofToRow walletId ProofStatus.UNSPENT))) ++
       (send.filter
          (fun p => decide (p.secret ∉ (loadProofs walletId none s).map Proof.secret))).map
          (proofToRow walletId ProofStatus.PENDING)) :
    (∀ resp, mint.meltProofsBolt11 meltQuote send = Except.ok resp →
      (∀ p ∈ resp.change, p.secret ∉ s.map DbProof.secret ∧
        p.secret ∉ (keep ++ send).map Proof.secret) →
      (resp.change.map Proof.secret).Nodup →
      ∃ s', meltProofs mint walletId meltQuote s = DbOut.ok resp s' ∧
        (∀ sec ∈ send.map Proof.secret, ∃ r ∈ s', r.walletId = walletId ∧
          r.secret = sec ∧ r.status = ProofStatus.SPENT) ∧
        ∀ r ∈ s', r.walletId = walletId → r.secret ∈ send.map Proof.secret →
          r.status = ProofStatus.SPENT) ∧
    (∀ e qc, mint.meltProofsBolt11 meltQuote send = Except.error e →
      mint.checkMeltQuoteBolt11 meltQuote.quote = Except.ok qc →
      qc.state = MeltQuoteState.PAID →
      ∃ s', meltProofs mint walletId meltQuote s =
          DbOut.ok (MeltResult.mk qc []) s' ∧
        (∀ sec ∈ send.map Proof.secret, ∃ r ∈ s', r.walletId = walletId ∧
          r.secret = sec ∧ r.status = ProofStatus.SPENT) ∧
        ∀ r ∈ s', r.walletId = walletId → r.secret ∈ send.map Proof.secret →
          r.status = ProofStatus.SPENT) := by
  have hrunA := melt_phaseA_eq mint walletId meltQuote s keep send
    hbal hswap hfreshOut hnodupOut
  rw [← hsA] at hrunA
  have hsAsec : sA.map DbProof.secret =
      s.map DbProof.secret ++
      (keep.filter
        (fun p => decide (p.secret ∉ (loadProofs walletId none s).map Proof.secret))).map
        Proof.secret ++
      (send.filter
        (fun p => decide (p.secret ∉ (loadProofs walletId none s).map Proof.secret))).map
        Proof.secret := by
    rw [hsA, List.map_append, updateProofsStatus_secrets, List.map_append,
      updateProofsStatus_secrets, proofToRow_secrets, proofToRow_secrets]
  have hexists : ∀ sec ∈ send.map Proof.secret,
      ∃ r ∈ updateProofsStatus walletId (send.map Proof.secret) ProofStatus.SPENT sA,
        r.walletId = walletId ∧ r.secret = sec ∧ r.status = ProofStatus.SPENT := by
    intro sec hsec
    rw [hsA]
    exact melt_reserved_status_exists walletId s keep send ProofStatus.SPENT sec hsec
  constructor
  · intro resp hmelt hcfresh hcnodup
    have hsave : saveProofs walletId resp.change ProofStatus.UNSPENT
        (updateProofsStatus walletId (send.map Proof.secret) ProofStatus.SPENT sA) =
        DbOut.ok ()
          ((updateProofsStatus walletId (send.map Proof.secret) ProofStatus.SPENT sA) ++
            resp.change.map (proofToRow walletId ProofStatus.UNSPENT)) := by
      apply saveProofs_ok
      · intro p hp
        rw [updateProofsStatus_secrets, hsAsec]
        simp only [List.mem_append]
        rintro ((h | h) | h)
        · exact (hcfresh p hp).1 h
        · obtain ⟨q, hq, hqs⟩ := List.mem_map.mp h
          have hqk : q ∈ keep := (List.mem_filter.mp hq).1
          apply (hcfresh p hp).2
          rw [← hqs]
          exact List.mem_map_of_mem Proof.secret (List.mem_append_left _ hqk)
        · obtain ⟨q, hq, hqs⟩ := List.mem_map.mp h
          have hqk : q ∈ send := (List.mem_filter.mp hq).1
          apply (hcfresh p hp).2
          rw [← hqs]
          exact List.mem_map_of_mem Proof.secret (List.mem_append_right _ hqk)
      · exact hcnodup
    refine ⟨(updateProofsStatus walletId (send.map Proof.secret) ProofStatus.SPENT sA) ++
      resp.change.map (proofToRow walletId ProofStatus.UNSPENT), ?_, ?_, ?_⟩
    · rw [hrunA]
      simp only [meltAttempt, meltTryBlock, hmelt]
      rw [saveProofs_guard, hsave]
    · intro sec hsec
      obtain ⟨r, hr, hw, hrs, hst⟩ := hexists sec hsec
      exact ⟨r, List.mem_append_left _ hr, hw, hrs, hst⟩
    · intro r' hr' hw' hsec'
      rcases List.mem_append.mp hr' with h | h
      · exact updateProofsStatus_mem_status walletId _ ProofStatus.SPENT sA r' h hw' hsec'
      · exfalso
        obtain ⟨q, hq, hqe⟩ := List.mem_map.mp h
        have : r'.secret = q.secret := by rw [← hqe]; rfl
        rw [this] at hsec'
        apply (hcfresh q hq).2
        rw [List.map_append]
        exact List.mem_append_right _ hsec'
  · intro e qc hmelt hcheck hqc
    refine ⟨updateProofsStatus walletId (send.map Proof.secret) ProofStatus.SPENT sA,
      ?_, ?_, ?_⟩
    · rw [hrunA]
      simp only [meltAttempt, meltTryBlock, hmelt, meltCatch, meltRecheckBody, hcheck, hqc]
    · intro sec hsec
      exact hexists sec hsec
    · intro r' hr' hw' hsec'
      exact updateProofsStatus_mem_status walletId _ ProofStatus.SPENT sA r' hr' hw' hsec'

/-- C2 witness: the melt-happy scenario — the direct success branch of
the theorem at the concrete fixtures. -/
theorem meltProofs_paid_spec_witness :
    ∃ s', meltProofs mintMeltPaidW 1 meltQuoteW storeMeltW =
      DbOut.ok meltRespW s' := by
  obtain ⟨s', hrun, -, -⟩ :=
    (meltProofs_paid_spec mintMeltPaidW 1 meltQuoteW storeMeltW [keepMW] [sendMW]
      _ (by decide) rfl (by decide) (by decide) rfl).1
      meltRespW rfl (by decide) (by decide)
  exact ⟨s', hrun⟩

/-- Helper: `getProofsAmount` is the sum of the amounts. -/
theorem getProofsAmount_eq_sum (ps : List Proof) :
    getProofsAmount ps = (ps.map Proof.amount).sum := by
  have h : ∀ a : Nat, ps.foldl (fun acc p => acc + p.amount) a =
      a + (ps.map Proof.amount).sum := by
    induction ps with
    | nil => intro a; simp
    | cons p t ih =>
      intro a
      simp only [List.foldl_cons, List.map_cons, List.sum_cons, ih]
      omega
  simpa [getProofsAmount] using h 0

/-- Helper: the UNSPENT balance splits over an appended store. -/
theorem balance_fst_append (walletId : Nat) (l1 l2 : Store) :
    (getWalletBalance walletId (l1 ++ l2)).1 =
      (getWalletBalance walletId l1).1 + (getWalletBalance walletId l2).1 := by
  simp [getWalletBalance, List.filter_append]

/-- Helper: a status update distributes over an appended store. -/
theorem updateProofsStatus_append (walletId : Nat) (secrets : List String)
    (status : ProofStatus) (l1 l2 : Store) :
    updateProofsStatus walletId secrets status (l1 ++ l2) =
      updateProofsStatus walletId secrets status l1 ++
      updateProofsStatus walletId secrets status l2 := by
  simp [updateProofsStatus]

/-- Helper: an update selecting no row is the identity. -/
theorem updateProofsStatus_id (walletId : Nat) (secrets : List String)
    (status : ProofStatus) :
    ∀ l : Store, (∀ r ∈ l, ¬(r.walletId = walletId ∧ r.secret ∈ secrets)) →
      updateProofsStatus walletId secrets status l = l := by
  intro l
  induction l with
  | nil => intro _; rfl
  | cons r t ih =>
    intro h
    have h1 := h r (by simp)
    have h2 := ih (fun x hx => h x (by simp [hx]))
    simp only [updateProofsStatus, List.map_cons] at h2 ⊢
    rw [if_neg h1, h2]

/-- Helper: an update selecting every row restatuses all of them. -/
theorem updateProofsStatus_all (walletId : Nat) (secrets : List String)
    (status : ProofStatus) :
    ∀ l : Store, (∀ r ∈ l, r.walletId = walletId ∧ r.secret ∈ secrets) →
      updateProofsStatus walletId secrets status l =
        l.map (fun r => { r with status := status }) := by
  intro l
  induction l with
  | nil => intro _; rfl
  | cons r t ih =>
    intro h
    have h1 := h r (by simp)
    have h2 := ih (fun x hx => h x (by simp [hx]))
    simp only [updateProofsStatus, List.map_cons] at h2 ⊢
    rw [if_pos h1, h2]

/-- Helper: the UNSPENT balance of freshly inserted UNSPENT rows of the
wallet is their amount sum. -/
theorem unspent_rows_balance (walletId : Nat) (ps : List Proof) :
    (getWalletBalance walletId
      (ps.map (proofToRow walletId ProofStatus.UNSPENT))).1 =
      getProofsAmount ps := by
  rw [getProofsAmount_eq_sum]
  induction ps with
  | nil => simp [getWalletBalance]
  | cons p t ih =>
    simp only [List.map_cons, getWalletBalance, List.filter_cons] at ih ⊢
    simp [proofToRow] at ih ⊢
    omega

/-- Helper: the UNSPENT balance is the amount of the loaded UNSPENT
proofs. -/
theorem balance_eq_loadProofs (walletId : Nat) (s : Store) :
    (getWalletBalance walletId s).1 = getProofsAmount (loadProofs walletId none s) := by
  rw [getProofsAmount_eq_sum]
  unfold getWalletBalance loadProofs
  simp only [Option.getD_none]
  rw [List.map_map]
  congr 1

/-- Helper: accounting identity for the melt revert chain
(SPENT update, then PENDING update, then UNSPENT revert): the final
UNSPENT balance plus the amounts of the consumed (swapped) inputs equals
the initial UNSPENT balance, provided each wallet row relates to the
secret lists as phase A arranges. -/
theorem revert_unspent_sum (walletId : Nat)
    (secs1 secs2 secs3 R : List String) :
    ∀ s : Store,
      (∀ r ∈ s, r.walletId = walletId →
        ((r.status = ProofStatus.UNSPENT →
          ((r.secret ∉ R ∧ r.secret ∈ secs1 ∧ r.secret ∉ secs2 ∧ r.secret ∉ secs3) ∨
           (r.secret ∈ R ∧ r.secret ∉ secs1 ∧
             (r.secret ∈ secs3 ∨ (r.secret ∉ secs2 ∧ r.secret ∉ secs3))))) ∧
         (¬ r.status = ProofStatus.UNSPENT →
           r.secret ∉ secs1 ∧ r.secret ∉ secs2 ∧ r.secret ∉ secs3))) →
      (getWalletBalance walletId
        (updateProofsStatus walletId secs3 ProofStatus.UNSPENT
          (updateProofsStatus walletId secs2 ProofStatus.PENDING
            (updateProofsStatus walletId secs1 ProofStatus.SPENT s)))).1 +
      getProofsAmount ((loadProofs walletId none s).filter
        (fun p => decide (p.secret ∉ R))) =
      (getWalletBalance walletId s).1 := by
  intro s
  induction s with
  | nil =>
    intro _
    simp [getWalletBalance, loadProofs, updateProofsStatus, getProofsAmount]
  | cons r t ih =>
    intro H
    have Hr := H r (by simp)
    have iht := ih (fun x hx => H x (by simp [hx]))
    by_cases hw : r.walletId = walletId
    · by_cases hst : r.status = ProofStatus.UNSPENT
      · rcases (Hr hw).1 hst with ⟨hnR, h1, h2, h3⟩ | ⟨hR, h1, hcase⟩
        · simp [updateProofsStatus, getWalletBalance, loadProofs, rowToProof,
            getProofsAmount_eq_sum, List.filter_cons, hw, hst, hnR, h1, h2, h3]
            at iht ⊢
          omega
        · rcases hcase with h3 | ⟨h2, h3⟩
          · by_cases h2' : r.secret ∈ secs2
            · simp [updateProofsStatus, getWalletBalance, loadProofs, rowToProof,
                getProofsAmount_eq_sum, List.filter_cons, hw, hst, hR, h1, h2', h3]
                at iht ⊢
              omega
            · simp [updateProofsStatus, getWalletBalance, loadProofs, rowToProof,
                getProofsAmount_eq_sum, List.filter_cons, hw, hst, hR, h1, h2', h3]
                at iht ⊢
              omega
          · simp [updateProofsStatus, getWalletBalance, loadProofs, rowToProof,
              getProofsAmount_eq_sum, List.filter_cons, hw, hst, hR, h1, h2, h3]
              at iht ⊢
            omega
      · obtain ⟨h1, h2, h3⟩ := (Hr hw).2 hst
        simp [updateProofsStatus, getWalletBalance, loadProofs, rowToProof,
          getProofsAmount_eq_sum, List.filter_cons, hw, hst, h1, h2, h3]
          at iht ⊢
        omega
    · simp [updateProofsStatus, getWalletBalance, loadProofs, rowToProof,
        getProofsAmount_eq_sum, List.filter_cons, hw] at iht ⊢
      omega

/-- C3: when the melt throws, the re-check reports UNPAID and the thrown
error is not a mint error with code 11001 or 11002, every reserved send
secret is set back to UNSPENT and the call fails with a 500
connection-kind `AppError`; the wallet's UNSPENT sum is restored modulo
the swap split: final UNSPENT balance plus the swapped input amounts
equals the initial UNSPENT balance plus the amounts of the newly minted
keep and send proofs. -/
theorem meltProofs_unpaid_revert_spec (mint : MintBehavior) (walletId : Nat)
    (meltQuote : MeltQuoteResp) (s : Store) (keep send : List Proof)
    (sA : Store) (e : Thrown) (qc : MeltQuoteResp)
    (hbal : ¬ getProofsAmount (loadProofs walletId none s) <
      meltQuote.amount + meltQuote.fee_reserve)
    (hswap : mint.send (meltQuote.amount + meltQuote.fee_reserve)
      (loadProofs walletId none s) false none = Except.ok (SendResult.mk keep send))
    (hfreshOut : ∀ p ∈ keep ++ send,
      p.secret ∉ (loadProofs walletId none s).map Proof.secret →
      p.secret ∉ s.map DbProof.secret)
    (hnodupOut : ((keep ++ send).map Proof.secret).Nodup)
    (hnodupStore : (s.map DbProof.secret).Nodup)
    (hsA : sA =
      (updateProofsStatus walletId
        ((send.map Proof.secret).filter
          (fun x => decide (x ∈ (loadProofs walletId none s).map Proof.secret)))
        ProofStatus.PENDING
        ((updateProofsStatus walletId
            (((loadProofs walletId none s).map Proof.secret).filter
              (fun x => decide (x ∉ keep.map Proof.secret ++ send.map Proof.secret)))
            ProofStatus.SPENT s) ++
          (keep.filter
            (fun p => decide (p.secret ∉ (loadProofs walletId none s).map Proof.secret))).map
            (proofToRow walletId ProofStatus.UNSPENT))) ++
       (send.filter
          (fun p => decide (p.secret ∉ (loadProofs walletId none s).map Proof.secret))).map
          (proofToRow walletId ProofStatus.PENDING))
    (hmelt : mint.meltProofsBolt11 meltQuote send = Except.error e)
    (hcheck : mint.checkMeltQuoteBolt11 meltQuote.quote = Except.ok qc)
    (hqc : qc.state = MeltQuoteState.UNPAID)
    (hcode : ∀ c, e = Thrown.mintOp c → ¬c = 11001 ∧ ¬c = 11002) :
    meltProofs mint walletId meltQuote s =
      DbOut.err (Thrown.app (AppError.mk 500 ErrKind.CONNECTION_ERROR))
        (updateProofsStatus walletId (send.map Proof.secret) ProofStatus.UNSPENT sA) ∧
    (∀ sec ∈ send.map Proof.secret,
      ∃ r ∈ updateProofsStatus walletId (send.map Proof.secret) ProofStatus.UNSPENT sA,
        r.walletId = walletId ∧ r.secret = sec ∧ r.status = ProofStatus.UNSPENT) ∧
    (∀ r ∈ updateProofsStatus walletId (send.map Proof.secret)
        ProofStatus.UNSPENT sA,
      r.walletId = walletId → r.secret ∈ send.map Proof.secret →
        r.status = ProofStatus.UNSPENT) ∧
    (getWalletBalance walletId
        (updateProofsStatus walletId (send.map Proof.secret)
          ProofStatus.UNSPENT sA)).1 +
      getProofsAmount ((loadProofs walletId none s).filter
        (fun p => decide (p.secret ∉ keep.map Proof.secret ++ send.map Proof.secret))) =
      (getWalletBalance walletId s).1 +
      getProofsAmount (keep.filter
        (fun p => decide (p.secret ∉ (loadProofs walletId none s).map Proof.secret))) +
      getProofsAmount (send.filter
        (fun p => decide (p.secret ∉ (loadProofs walletId none s).map Proof.secret))) := by
  have hmapnd : (keep.map Proof.secret ++ send.map Proof.secret).Nodup := by
    rw [← List.map_append]
    exact hnodupOut
  rw [List.nodup_append] at hmapnd
  obtain ⟨hndk, hnds, hdisj⟩ := hmapnd
  have hrunA := melt_phaseA_eq mint walletId meltQuote s keep send
    hbal hswap hfreshOut hnodupOut
  rw [← hsA] at hrunA
  refine ⟨?_, ?_, ?_, ?_⟩
  · rw [hrunA]
    simp only [meltAttempt, meltTryBlock, hmelt, meltCatch, meltRecheckBody,
      hcheck, hqc]
    rcases e with a | c | msg
    · rw [if_neg (by simp), if_neg (by simp)]
    · obtain ⟨h1, h2⟩ := hcode c rfl
      rw [if_neg (by simp [h2]), if_neg (by simp [h1])]
    · rw [if_neg (by simp), if_neg (by simp)]
  · intro sec hsec
    rw [hsA]
    exact melt_reserved_status_exists walletId s keep send ProofStatus.UNSPENT sec hsec
  · intro r' hr' hw' hsec'
    exact updateProofsStatus_mem_status walletId _ ProofStatus.UNSPENT sA r' hr' hw' hsec'
  · -- the accounting identity
    rw [hsA, updateProofsStatus_append, updateProofsStatus_append,
      updateProofsStatus_append, balance_fst_append, balance_fst_append]
    -- the keep rows are untouched by the PENDING and UNSPENT updates
    have hkeepId2 : updateProofsStatus walletId
        ((send.map Proof.secret).filter
          (fun x => decide (x ∈ (loadProofs walletId none s).map Proof.secret)))
        ProofStatus.PENDING
        ((keep.filter
          (fun p => decide (p.secret ∉ (loadProofs walletId none s).map Proof.secret))).map
          (proofToRow walletId ProofStatus.UNSPENT)) =
        (keep.filter
          (fun p => decide (p.secret ∉ (loadProofs walletId none s).map Proof.secret))).map
          (proofToRow walletId ProofStatus.UNSPENT) := by
      apply updateProofsStatus_id
      intro r hr
      rintro ⟨_, hin⟩
      obtain ⟨q, hq, hqe⟩ := List.mem_map.mp hr
      have hqk : q ∈ keep := (List.mem_filter.mp hq).1
      have hrsec : r.secret = q.secret := by rw [← hqe]; rfl
      rw [List.mem_filter] at hin
      have hsend : r.secret ∈ send.map Proof.secret := hin.1
      rw [hrsec] at hsend
      exact hdisj (List.mem_map_of_mem Proof.secret hqk) hsend
    have hkeepId3 : updateProofsStatus walletId (send.map Proof.secret)
        ProofStatus.UNSPENT
        ((keep.filter
          (fun p => decide (p.secret ∉ (loadProofs walletId none s).map Proof.secret))).map
          (proofToRow walletId ProofStatus.UNSPENT)) =
        (keep.filter
          (fun p => decide (p.secret ∉ (loadProofs walletId none s).map Proof.secret))).map
          (proofToRow walletId ProofStatus.UNSPENT) := by
      apply updateProofsStatus_id
      intro r hr
      rintro ⟨_, hin⟩
      obtain ⟨q, hq, hqe⟩ := List.mem_map.mp hr
      have hqk : q ∈ keep := (List.mem_filter.mp hq).1
      have hrsec : r.secret = q.secret := by rw [← hqe]; rfl
      rw [hrsec] at hin
      exact hdisj (List.mem_map_of_mem Proof.secret hqk) hin
    -- the new send rows are all flipped to UNSPENT by the revert
    have hsendAll : updateProofsStatus walletId (send.map Proof.secret)
        ProofStatus.UNSPENT
        ((send.filter
          (fun p => decide (p.secret ∉ (loadProofs walletId none s).map Proof.secret))).map
          (proofToRow walletId ProofStatus.PENDING)) =
        (send.filter
          (fun p => decide (p.secret ∉ (loadProofs walletId none s).map Proof.secret))).map
          (proofToRow walletId ProofStatus.UNSPENT) := by
      rw [updateProofsStatus_all]
      · rw [List.map_map]
        apply List.map_congr_left
        intro q _
        rfl
      · intro r hr
        obtain ⟨q, hq, hqe⟩ := List.mem_map.mp hr
        have hqs : q ∈ send := (List.mem_filter.mp hq).1
        refine ⟨by rw [← hqe]; rfl, ?_⟩
        have hrsec : r.secret = q.secret := by rw [← hqe]; rfl
        rw [hrsec]
        exact List.mem_map_of_mem Proof.secret hqs
    rw [hkeepId2, hkeepId3, hsendAll, unspent_rows_balance, unspent_rows_balance]
    -- the store part satisfies the revert accounting identity
    have hsum := revert_unspent_sum walletId
      (((loadProofs walletId none s).map Proof.secret).filter
        (fun x => decide (x ∉ keep.map Proof.secret ++ send.map Proof.secret)))
      ((send.map Proof.secret).filter
        (fun x => decide (x ∈ (loadProofs walletId none s).map Proof.secret)))
      (send.map Proof.secret)
      (keep.map Proof.secret ++ send.map Proof.secret)
      s ?_
    · omega
    · intro r hr hw
      constructor
      · intro hst
        have hSIn : r.secret ∈ (loadProofs walletId none s).map Proof.secret := by
          unfold loadProofs
          rw [List.map_map]
          refine List.mem_map.mpr ⟨r, ?_, rfl⟩
          rw [List.mem_filter, decide_eq_true_eq]
          exact ⟨hr, hw, hst⟩
        by_cases hR : r.secret ∈ keep.map Proof.secret ++ send.map Proof.secret
        · right
          refine ⟨hR, ?_, ?_⟩
          · intro hmem
            rw [List.mem_filter, decide_eq_true_eq] at hmem
            exact hmem.2 hR
          · rcases List.mem_append.mp hR with hk | hs'
            · right
              constructor
              · intro hmem
                rw [List.mem_filter] at hmem
                exact hdisj hk hmem.1
              · intro hmem
                exact hdisj hk hmem
            · left
              exact hs'
        · left
          refine ⟨hR, ?_, ?_, ?_⟩
          · rw [List.mem_filter, decide_eq_true_eq]
            exact ⟨hSIn, hR⟩
          · intro hmem
            rw [List.mem_filter] at hmem
            exact hR (List.mem_append.mpr (Or.inr hmem.1))
          · intro hmem
            exact hR (List.mem_append.mpr (Or.inr hmem))
      · intro hst
        have hnotSIn : r.secret ∉ (loadProofs walletId none s).map Proof.secret := by
          intro hSIn
          obtain ⟨q, hq, hqe⟩ := List.mem_map.mp hSIn
          obtain ⟨r2, hr2, hw2, hst2, hsec2, _⟩ :=
            loadProofs_mem walletId ProofStatus.UNSPENT s q hq
          have : r2 = r := List.inj_on_of_nodup_map hnodupStore hr2 hr
            (by rw [hsec2, hqe])
          rw [this] at hst2
          exact hst hst2
        refine ⟨?_, ?_, ?_⟩
        · intro hmem
          rw [List.mem_filter] at hmem
          exact hnotSIn hmem.1
        · intro hmem
          rw [List.mem_filter, decide_eq_true_eq] at hmem
          exact hnotSIn hmem.2
        · intro hmem
          obtain ⟨p, hp, hpe⟩ := List.mem_map.mp hmem
          by_cases hpin : p.secret ∈ (loadProofs walletId none s).map Proof.secret
          · rw [hpe] at hpin
            exact hnotSIn hpin
          · have := hfreshOut p (List.mem_append_right _ hp) hpin
            apply this
            rw [hpe]
            exact List.mem_map_of_mem DbProof.secret hr

/-- C3 witness: the theorem applied to a melt that throws a generic
error with the quote re-check reporting UNPAID. -/
theorem meltProofs_unpaid_revert_spec_witness :
    ∃ s', meltProofs mintMeltUnpaidW 1 meltQuoteW storeMeltW =
      DbOut.err (Thrown.app (AppError.mk 500 ErrKind.CONNECTION_ERROR)) s' := by
  obtain ⟨hrun, -, -, -⟩ :=
    meltProofs_unpaid_revert_spec mintMeltUnpaidW 1 meltQuoteW storeMeltW
      [keepMW] [sendMW] _ (Thrown.error "some generic error") meltQuoteW
      (by decide) rfl (by decide) (by decide) (by decide) rfl rfl rfl rfl
      (fun _ h => Thrown.noConfusion h)
  exact ⟨_, hrun⟩

/-- Helper: right after phase A, every reserved send secret has a
PENDING row of the wallet. -/
theorem melt_phaseA_pending_exists (walletId : Nat) (s : Store)
    (keep send : List Proof) (sec : String)
    (hsec : sec ∈ send.map Proof.secret) :
    ∃ r ∈ (updateProofsStatus walletId
        ((send.map Proof.secret).filter
          (fun x => decide (x ∈ (loadProofs walletId none s).map Proof.secret)))
        ProofStatus.PENDING
        ((updateProofsStatus walletId
            (((loadProofs walletId none s).map Proof.secret).filter
              (fun x => decide (x ∉ keep.map Proof.secret ++ send.map Proof.secret)))
            ProofStatus.SPENT s) ++
          (keep.filter
            (fun p => decide (p.secret ∉ (loadProofs walletId none s).map Proof.secret))).map
            (proofToRow walletId ProofStatus.UNSPENT))) ++
       (send.filter
          (fun p => decide (p.secret ∉ (loadProofs walletId none s).map Proof.secret))).map
          (proofToRow walletId ProofStatus.PENDING),
      r.walletId = walletId ∧ r.secret = sec ∧ r.status = ProofStatus.PENDING := by
  by_cases hin : sec ∈ (loadProofs walletId none s).map Proof.secret
  · obtain ⟨q, hq, hqs⟩ := List.mem_map.mp hin
    obtain ⟨r, hr, hw, hst, hrsec, _⟩ :=
      loadProofs_mem walletId ProofStatus.UNSPENT s q hq
    have h1 := updateProofsStatus_not_mem walletId
      (((loadProofs walletId none s).map Proof.secret).filter
        (fun x => decide (x ∉ keep.map Proof.secret ++ send.map Proof.secret)))
      ProofStatus.SPENT s r hr
      (by
        rintro ⟨_, hmem⟩
        rw [List.mem_filter, decide_eq_true_eq] at hmem
        apply hmem.2
        rw [hrsec, hqs]
        exact List.mem_append.mpr (Or.inr hsec))
    have h1b : r ∈ (updateProofsStatus walletId
        (((loadProofs walletId none s).map Proof.secret).filter
          (fun x => decide (x ∉ keep.map Proof.secret ++ send.map Proof.secret)))
        ProofStatus.SPENT s) ++
        (keep.filter
          (fun p => decide (p.secret ∉ (loadProofs walletId none s).map Proof.secret))).map
          (proofToRow walletId ProofStatus.UNSPENT) :=
      List.mem_append_left _ h1
    have h2 := updateProofsStatus_mem walletId
      ((send.map Proof.secret).filter
        (fun x => decide (x ∈ (loadProofs walletId none s).map Proof.secret)))
      ProofStatus.PENDING _ r h1b
      ⟨hw, by
        rw [hrsec, hqs, List.mem_filter, decide_eq_true_eq]
        exact ⟨hsec, hin⟩⟩
    exact ⟨_, List.mem_append_left _ h2, hw, by rw [hrsec, hqs], rfl⟩
  · obtain ⟨q, hq, hqs⟩ := List.mem_map.mp hsec
    have hrow : proofToRow walletId ProofStatus.PENDING q ∈
        (send.filter
          (fun p => decide (p.secret ∉ (loadProofs walletId none s).map Proof.secret))).map
          (proofToRow walletId ProofStatus.PENDING) :=
      List.mem_map_of_mem _ (List.mem_filter.mpr ⟨hq,
        by rw [decide_eq_true_eq, hqs]; exact hin⟩)
    exact ⟨_, List.mem_append_right _ hrow, rfl, by rw [← hqs]; rfl, rfl⟩

/-- C4: when the melt throws and the quote re-check itself also fails
with something that is not an `AppError` (the mint is unreachable), no
status is reverted — the phase-A store is returned as is, every reserved
send secret still has its PENDING row and no wallet row with a reserved
secret left PENDING is otherwise restatused — and the call fails with a
500 connection-kind `AppError`; moreover any `AppError` raised inside
the re-check branch logic (such as the 202 timeout of the PENDING
state) propagates unchanged instead of being re-wrapped. -/
theorem meltProofs_recheck_fails_spec (mint : MintBehavior) (walletId : Nat)
    (meltQuote : MeltQuoteResp) (s : Store) (keep send : List Proof)
    (sA : Store) (e : Thrown)
    (hbal : ¬ getProofsAmount (loadProofs walletId none s) <
      meltQuote.amount + meltQuote.fee_reserve)
    (hswap : mint.send (meltQuote.amount + meltQuote.fee_reserve)
      (loadProofs walletId none s) false none = Except.ok (SendResult.mk keep send))
    (hfreshOut : ∀ p ∈ keep ++ send,
      p.secret ∉ (loadProofs walletId none s).map Proof.secret →
      p.secret ∉ s.map DbProof.secret)
    (hnodupOut : ((keep ++ send).map Proof.secret).Nodup)
    (hsA : sA =
      (updateProofsStatus walletId
        ((send.map Proof.secret).filter
          (fun x => decide (x ∈ (loadProofs walletId none s).map Proof.secret)))
        ProofStatus.PENDING
        ((updateProofsStatus walletId
            (((loadProofs walletId none s).map Proof.secret).filter
              (fun x => decide (x ∉ keep.map Proof.secret ++ send.map Proof.secret)))
            ProofStatus.SPENT s) ++
          (keep.filter
            (fun p => decide (p.secret ∉ (loadProofs walletId none s).map Proof.secret))).map
            (proofToRow walletId ProofStatus.UNSPENT))) ++
       (send.filter
          (fun p => decide (p.secret ∉ (loadProofs walletId none s).map Proof.secret))).map
          (proofToRow walletId ProofStatus.PENDING))
    (hmelt : mint.meltProofsBolt11 meltQuote send = Except.error e) :
    (∀ checkErr, mint.checkMeltQuoteBolt11 meltQuote.quote = Except.error checkErr →
      (∀ a, checkErr ≠ Thrown.app a) →
      meltProofs mint walletId meltQuote s =
        DbOut.err (Thrown.app (AppError.mk 500 ErrKind.CONNECTION_ERROR)) sA ∧
      (∀ sec ∈ send.map Proof.secret, ∃ r ∈ sA, r.walletId = walletId ∧
        r.secret = sec ∧ r.status = ProofStatus.PENDING) ∧
      (∀ r ∈ sA, r.walletId = walletId → r.secret ∈ send.map Proof.secret →
        r.status = ProofStatus.PENDING)) ∧
    (∀ a s', meltRecheckBody mint walletId meltQuote (send.map Proof.secret) e sA =
        DbOut.err (Thrown.app a) s' →
      meltProofs mint walletId meltQuote s = DbOut.err (Thrown.app a) s') ∧
    (∀ qc, mint.checkMeltQuoteBolt11 meltQuote.quote = Except.ok qc →
      qc.state = MeltQuoteState.PENDING →
      meltProofs mint walletId meltQuote s =
        DbOut.err (Thrown.app (AppError.mk 202 ErrKind.TIMEOUT_ERROR)) sA) := by
  have hrunA := melt_phaseA_eq mint walletId meltQuote s keep send
    hbal hswap hfreshOut hnodupOut
  rw [← hsA] at hrunA
  refine ⟨?_, ?_, ?_⟩
  · intro checkErr hcheck hna
    refine ⟨?_, ?_, ?_⟩
    · rw [hrunA]
      rcases checkErr with a | c | msg
      · exact absurd rfl (hna a)
      · simp only [meltAttempt, meltTryBlock, hmelt, meltCatch, meltRecheckBody, hcheck]
      · simp only [meltAttempt, meltTryBlock, hmelt, meltCatch, meltRecheckBody, hcheck]
    · intro sec hsec
      rw [hsA]
      exact melt_phaseA_pending_exists walletId s keep send sec hsec
    · intro r hr hw hsec
      rw [hsA] at hr
      rcases List.mem_append.mp hr with h | h
      · obtain ⟨r1, hr1, hweq, hseq, hcase⟩ :=
          updateProofsStatus_shape walletId _ ProofStatus.PENDING _ r h
        rcases hcase with ⟨req, hnc⟩ | ⟨_, _, hstq⟩
        · exfalso
          by_cases hin : r1.secret ∈ (loadProofs walletId none s).map Proof.secret
          · apply hnc
            refine ⟨by rw [← hweq]; exact hw, ?_⟩
            rw [List.mem_filter, decide_eq_true_eq]
            exact ⟨by rw [← hseq]; exact hsec, hin⟩
          · rcases List.mem_append.mp hr1 with h1 | h1
            · obtain ⟨r0, hr0, hweq0, hseq0, _⟩ :=
                updateProofsStatus_shape walletId _ ProofStatus.SPENT s r1 h1
              obtain ⟨p, hp, hpe⟩ := List.mem_map.mp hsec
              have hpfresh : p.secret ∉ (loadProofs walletId none s).map Proof.secret := by
                rw [hpe, hseq]
                exact hin
              apply hfreshOut p (List.mem_append_right _ hp) hpfresh
              rw [hpe, hseq, hseq0]
              exact List.mem_map_of_mem DbProof.secret hr0
            · obtain ⟨q, hq, hqe⟩ := List.mem_map.mp h1
              have hqk : q ∈ keep := (List.mem_filter.mp hq).1
              have hmapnd : (keep.map Proof.secret ++ send.map Proof.secret).Nodup := by
                rw [← List.map_append]
                exact hnodupOut
              rw [List.nodup_append] at hmapnd
              have hsend : r1.secret ∈ send.map Proof.secret := by
                rw [← hseq]
                exact hsec
              have hkeep : r1.secret ∈ keep.map Proof.secret := by
                rw [← hqe]
                exact List.mem_map_of_mem Proof.secret hqk
              exact hmapnd.2.2 hkeep hsend
        · exact hstq
      · obtain ⟨p, hp, hpe⟩ := List.mem_map.mp h
        rw [← hpe]
        rfl
  · intro a s' hbody
    rw [hrunA]
    simp only [meltAttempt, meltTryBlock, hmelt, meltCatch, hbody]
  · intro qc hcheck hqc
    rw [hrunA]
    simp only [meltAttempt, meltTryBlock, hmelt, meltCatch, meltRecheckBody,
      hcheck, hqc]

/-- C4 witness: the theorem applied to a melt whose payment call and
quote re-check both fail with plain network errors. -/
theorem meltProofs_recheck_fails_spec_witness :
    ∃ s', meltProofs mintMeltUnreachableW 1 meltQuoteW storeMeltW =
      DbOut.err (Thrown.app (AppError.mk 500 ErrKind.CONNECTION_ERROR)) s' := by
  obtain ⟨hrun, -, -⟩ :=
    (meltProofs_recheck_fails_spec mintMeltUnreachableW 1 meltQuoteW storeMeltW
      [keepMW] [sendMW] _ (Thrown.error "connection refused")
      (by decide) rfl (by decide) (by decide) rfl rfl).1
      (Thrown.error "timeout") rfl (fun _ h => Thrown.noConfusion h)
  exact ⟨_, hrun⟩

/-- C5: `syncProofsStateWithMint` queries the mint for exactly the
wallet's PENDING proofs; per result, a proof SPENT at the mint gets its
row set SPENT, an UNSPENT one gets its row set UNSPENT and a PENDING one
keeps its PENDING row; the returned counts are the numbers of SPENT,
PENDING and UNSPENT answers and partition the PENDING set; with no
PENDING proofs it returns all-zero counts on the unchanged store for
every mint behavior, i.e. without contacting the mint. -/
theorem syncProofsStateWithMint_spec (mint : MintBehavior) (walletId : Nat)
    (s : Store) (mintStates : List ProofStateEntry)
    (hnodup : (s.map DbProof.secret).Nodup)
    (hck : loadProofs walletId (some ProofStatus.PENDING) s ≠ [] →
      mint.checkProofsStates (loadProofs walletId (some ProofStatus.PENDING) s) =
        Except.ok mintStates)
    (hlen : mintStates.length =
      (loadProofs walletId (some ProofStatus.PENDING) s).length) :
    (loadProofs walletId (some ProofStatus.PENDING) s = [] →
      ∀ m' : MintBehavior,
        syncProofsStateWithMint m' walletId s = DbOut.ok (SyncResult.mk 0 0 0) s) ∧
    (loadProofs walletId (some ProofStatus.PENDING) s ≠ [] →
      ∃ s',
        syncProofsStateWithMint mint walletId s =
          DbOut.ok (SyncResult.mk
            (mintStates.filter (fun st => decide (st.state = CheckStateEnum.SPENT))).length
            (mintStates.filter (fun st => decide (st.state = CheckStateEnum.PENDING))).length
            (mintStates.filter (fun st => decide (st.state = CheckStateEnum.UNSPENT))).length)
            s' ∧
        (mintStates.filter (fun st => decide (st.state = CheckStateEnum.SPENT))).length +
          (mintStates.filter (fun st => decide (st.state = CheckStateEnum.PENDING))).length +
          (mintStates.filter (fun st => decide (st.state = CheckStateEnum.UNSPENT))).length =
          (loadProofs walletId (some ProofStatus.PENDING) s).length ∧
        ∀ pr ∈ (loadProofs walletId (some ProofStatus.PENDING) s).zip mintStates,
          (pr.2.state = CheckStateEnum.SPENT →
            (∃ r ∈ s', r.walletId = walletId ∧ r.secret = pr.1.secret ∧
              r.status = ProofStatus.SPENT) ∧
            ∀ r ∈ s', r.walletId = walletId → r.secret = pr.1.secret →
              r.status = ProofStatus.SPENT) ∧
          (pr.2.state = CheckStateEnum.UNSPENT →
            (∃ r ∈ s', r.walletId = walletId ∧ r.secret = pr.1.secret ∧
              r.status = ProofStatus.UNSPENT) ∧
            ∀ r ∈ s', r.walletId = walletId → r.secret = pr.1.secret →
              r.status = ProofStatus.UNSPENT) ∧
          (pr.2.state = CheckStateEnum.PENDING →
            ∃ r ∈ s', r.walletId = walletId ∧ r.secret = pr.1.secret ∧
              r.status = ProofStatus.PENDING)) := by
  constructor
  · intro hempty m'
    simp only [syncProofsStateWithMint, hempty]
    simp
  · intro hne
    have hckr := hck hne
    have hfS := syncSecrets_length (loadProofs walletId (some ProofStatus.PENDING) s)
      mintStates hlen CheckStateEnum.SPENT
    have hfU := syncSecrets_length (loadProofs walletId (some ProofStatus.PENDING) s)
      mintStates hlen CheckStateEnum.UNSPENT
    have hpart := filter_states_partition mintStates
    have hnd_p : ((loadProofs walletId (some ProofStatus.PENDING) s).map Proof.secret).Nodup :=
      loadProofs_secrets_nodup walletId (some ProofStatus.PENDING) s hnodup
    refine ⟨updateProofsStatus walletId
        (((loadProofs walletId (some ProofStatus.PENDING) s).zip mintStates).filterMap
          (fun pr => if pr.2.state = CheckStateEnum.UNSPENT then some pr.1.secret else none))
        ProofStatus.UNSPENT
        (updateProofsStatus walletId
          (((loadProofs walletId (some ProofStatus.PENDING) s).zip mintStates).filterMap
            (fun pr => if pr.2.state = CheckStateEnum.SPENT then some pr.1.secret else none))
          ProofStatus.SPENT s), ?_, by omega, ?_⟩
    · rw [sync_run_eq mint walletId s mintStates hne hckr, hfS, hfU]
      have hmid : (loadProofs walletId (some ProofStatus.PENDING) s).length -
          (mintStates.filter (fun st => decide (st.state = CheckStateEnum.SPENT))).length -
          (mintStates.filter (fun st => decide (st.state = CheckStateEnum.UNSPENT))).length =
          (mintStates.filter (fun st => decide (st.state = CheckStateEnum.PENDING))).length := by
        omega
      rw [hmid]
    · intro pr hpr
      obtain ⟨r, hr, hw, hst, hsec, _⟩ :=
        loadProofs_mem walletId ProofStatus.PENDING s pr.1 (List.of_mem_zip hpr).1
      refine ⟨?_, ?_, ?_⟩
      · intro hsp
        have hmemS : pr.1.secret ∈
            ((loadProofs walletId (some ProofStatus.PENDING) s).zip mintStates).filterMap
              (fun x => if x.2.state = CheckStateEnum.SPENT then some x.1.secret else none) :=
          (mem_syncSecrets _ _ _ _).mpr ⟨pr, hpr, hsp, rfl⟩
        have hnotU : pr.1.secret ∉
            ((loadProofs walletId (some ProofStatus.PENDING) s).zip mintStates).filterMap
              (fun x => if x.2.state = CheckStateEnum.UNSPENT then some x.1.secret else none) :=
          not_mem_syncSecrets _ _ hnd_p CheckStateEnum.UNSPENT pr hpr (by simp [hsp])
        constructor
        · have h1 := updateProofsStatus_mem walletId _ ProofStatus.SPENT s r hr
            ⟨hw, by rw [hsec]; exact hmemS⟩
          have h2 := updateProofsStatus_not_mem walletId _ ProofStatus.UNSPENT _ _ h1
            (by rintro ⟨_, hin⟩; exact hnotU (hsec ▸ hin))
          exact ⟨{ r with status := ProofStatus.SPENT }, h2, hw, hsec, rfl⟩
        · intro r' hr' hw' hsec'
          obtain ⟨r1, hr1, hweq, hseq, hcase⟩ :=
            updateProofsStatus_shape walletId _ ProofStatus.UNSPENT _ r' hr'
          rcases hcase with ⟨req, _⟩ | ⟨_, hin, _⟩
          · have hst1 := updateProofsStatus_mem_status walletId _ ProofStatus.SPENT s r1 hr1
              (by rw [← hweq, hw']) (by rw [← hseq, hsec']; exact hmemS)
            rw [req]
            exact hst1
          · exact absurd (show pr.1.secret ∈
                ((loadProofs walletId (some ProofStatus.PENDING) s).zip mintStates).filterMap
                  (fun x => if x.2.state = CheckStateEnum.UNSPENT then some x.1.secret else none) by
                rw [← hsec', hseq]; exact hin) hnotU
      · intro hun
        have hmemU : pr.1.secret ∈
            ((loadProofs walletId (some ProofStatus.PENDING) s).zip mintStates).filterMap
              (fun x => if x.2.state = CheckStateEnum.UNSPENT then some x.1.secret else none) :=
          (mem_syncSecrets _ _ _ _).mpr ⟨pr, hpr, hun, rfl⟩
        have hnotS : pr.1.secret ∉
            ((loadProofs walletId (some ProofStatus.PENDING) s).zip mintStates).filterMap
              (fun x => if x.2.state = CheckStateEnum.SPENT then some x.1.secret else none) :=
          not_mem_syncSecrets _ _ hnd_p CheckStateEnum.SPENT pr hpr (by simp [hun])
        constructor
        · have h1 := updateProofsStatus_not_mem walletId _ ProofStatus.SPENT s r hr
            (by rintro ⟨_, hin⟩; exact hnotS (hsec ▸ hin))
          have h2 := updateProofsStatus_mem walletId _ ProofStatus.UNSPENT _ r h1
            ⟨hw, by rw [hsec]; exact hmemU⟩
          exact ⟨{ r with status := ProofStatus.UNSPENT }, h2, hw, hsec, rfl⟩
        · intro r' hr' hw' hsec'
          obtain ⟨r1, hr1, hweq, hseq, hcase⟩ :=
            updateProofsStatus_shape walletId _ ProofStatus.UNSPENT _ r' hr'
          rcases hcase with ⟨_, hnc⟩ | ⟨_, _, hstq⟩
          · exact absurd ⟨by rw [← hweq, hw'], by rw [← hseq, hsec']; exact hmemU⟩ hnc
          · exact hstq
      · intro hpd
        have hnotS : pr.1.secret ∉
            ((loadProofs walletId (some ProofStatus.PENDING) s).zip mintStates).filterMap
              (fun x => if x.2.state = CheckStateEnum.SPENT then some x.1.secret else none) :=
          not_mem_syncSecrets _ _ hnd_p CheckStateEnum.SPENT pr hpr (by simp [hpd])
        have hnotU : pr.1.secret ∉
            ((loadProofs walletId (some ProofStatus.PENDING) s).zip mintStates).filterMap
              (fun x => if x.2.state = CheckStateEnum.UNSPENT then some x.1.secret else none) :=
          not_mem_syncSecrets _ _ hnd_p CheckStateEnum.UNSPENT pr hpr (by simp [hpd])
        have h1 := updateProofsStatus_not_mem walletId _ ProofStatus.SPENT s r hr
          (by rintro ⟨_, hin⟩; exact hnotS (hsec ▸ hin))
        have h2 := updateProofsStatus_not_mem walletId _ ProofStatus.UNSPENT _ r h1
          (by rintro ⟨_, hin⟩; exact hnotU (hsec ▸ hin))
        exact ⟨r, h2, hw, hsec, hst⟩

/-- C5 witness: the theorem applied to three PENDING proofs with mint
states [SPENT, UNSPENT, PENDING] yields counts one-one-one. -/
theorem syncProofsStateWithMint_spec_witness :
    ∃ s', syncProofsStateWithMint mintSyncW 1 storeSyncW =
      DbOut.ok (SyncResult.mk 1 1 1) s' := by
  obtain ⟨s', hrun, -, -⟩ :=
    (syncProofsStateWithMint_spec mintSyncW 1 storeSyncW syncStatesW
      (by decide) (fun _ => rfl) (by decide)).2 (by decide)
  exact ⟨s', hrun⟩

/-- C7 counterexample: for a supported currency with an empty cache and
a timed-out upstream fetch, the rate endpoint fails with a 404
notfound-kind `AppError`, not a connection-kind one as the claim
states. -/
theorem rate_failure_kind_cex :
    rateHandler (Except.error "Timeout") 0 [] "usd" =
      (Except.error (AppError.mk 404 ErrKind.NOTFOUND_ERROR), []) ∧
    ErrKind.NOTFOUND_ERROR ≠ ErrKind.CONNECTION_ERROR := by
  constructor
  · decide
  · decide

/-- C7 amended: for every supported currency, when the upstream fetch
fails (timeout, non-2xx or invalid body): any existing cache entry for
the currency — fresh or stale — is returned unchanged with the cache
untouched, and with no cache entry the endpoint fails with a 404
notfound-kind `AppError` (wrapping the service's plain `Error`). -/
theorem rate_fallback_spec (msg : String) (now : Nat) (cache : RateCacheMap)
    (currency : String)
    (hsup : SUPPORTED_CURRENCIES.contains (strToLower currency) = true) :
    (∀ c, lookupRateCache cache (strToLower currency) = some c →
      getExchangeRate (Except.error msg) now cache currency = (Except.ok c, cache)) ∧
    (lookupRateCache cache (strToLower currency) = none →
      rateHandler (Except.error msg) now cache currency =
        (Except.error (AppError.mk 404 ErrKind.NOTFOUND_ERROR), cache)) := by
  constructor
  · intro c hc
    unfold getExchangeRate
    simp only [hc]
    by_cases hfresh : now - c.timestamp < RATE_CACHE_TTL_MS
    · rw [if_pos hfresh]
    · rw [if_neg hfresh]
      have hmem : strToLower currency ∈ SUPPORTED_CURRENCIES := by simpa using hsup
      simp [hmem, rateTryBlock]
  · intro hnone
    unfold rateHandler
    have hiss : isSupportedCurrency currency = true := by
      simpa [isSupportedCurrency] using hsup
    rw [hiss]
    unfold getExchangeRate
    have hmem : strToLower currency ∈ SUPPORTED_CURRENCIES := by simpa using hsup
    simp only [hnone, rateTryBlock]
    simp [hmem]

/-- C7 witness: the amended theorem applied to a stale usd cache entry
with a timed-out fetch, and to the empty cache. -/
theorem rate_fallback_spec_witness :
    getExchangeRate (Except.error "Timeout") 999999 staleUsdCache "usd" =
      (Except.ok staleUsdEntry, staleUsdCache) ∧
    rateHandler (Except.error "Timeout") 999999 [] "usd" =
      (Except.error (AppError.mk 404 ErrKind.NOTFOUND_ERROR), []) :=
  ⟨(rate_fallback_spec "Timeout" 999999 staleUsdCache "usd" (by decide)).1
      staleUsdEntry (by decide),
   (rate_fallback_spec "Timeout" 999999 [] "usd" (by decide)).2 (by decide)⟩

/-- C8: whenever the mint's quote check succeeds, the deposit-check
handler responds successfully with the quote's fields, whatever the
opportunistic minting step does: a quote that is not PAID leaves the
store unchanged; on a PAID quote a failing mint call leaves the store
unchanged, a failing persist keeps the rows created before the failure,
and a successful mint-and-persist appends the minted proofs as UNSPENT
rows — in every case the response is the same success. -/
theorem checkDepositQuote_spec (mint : MintBehavior) (walletId : Nat)
    (quoteId : String) (s : Store) (q : MintQuoteResp)
    (hq : mint.checkMintQuoteBolt11 quoteId = Except.ok q) :
    (∃ s', checkDepositQuoteHandler mint walletId quoteId s =
      DbOut.ok (DepositQuoteResponse.mk q.quote q.request q.state q.expiry) s') ∧
    (q.state ≠ MintQuoteState.PAID →
      checkDepositQuoteHandler mint walletId quoteId s =
        DbOut.ok (DepositQuoteResponse.mk q.quote q.request q.state q.expiry) s) ∧
    (∀ e, q.state = MintQuoteState.PAID →
      mint.mintProofsBolt11 q.amount q.quote = Except.error e →
      checkDepositQuoteHandler mint walletId quoteId s =
        DbOut.ok (DepositQuoteResponse.mk q.quote q.request q.state q.expiry) s) ∧
    (∀ ps e s', q.state = MintQuoteState.PAID →
      mint.mintProofsBolt11 q.amount q.quote = Except.ok ps →
      saveProofs walletId ps ProofStatus.UNSPENT s = DbOut.err e s' →
      checkDepositQuoteHandler mint walletId quoteId s =
        DbOut.ok (DepositQuoteResponse.mk q.quote q.request q.state q.expiry) s') ∧
    (∀ ps, q.state = MintQuoteState.PAID →
      mint.mintProofsBolt11 q.amount q.quote = Except.ok ps →
      (∀ p ∈ ps, p.secret ∉ s.map DbProof.secret) →
      (ps.map Proof.secret).Nodup →
      checkDepositQuoteHandler mint walletId quoteId s =
        DbOut.ok (DepositQuoteResponse.mk q.quote q.request q.state q.expiry)
          (s ++ ps.map (proofToRow walletId ProofStatus.UNSPENT))) := by
  have hwrap : checkMintQuote mint quoteId = Except.ok q := by
    simp [checkMintQuote, hq]
  refine ⟨?_, ?_, ?_, ?_, ?_⟩
  · unfold checkDepositQuoteHandler
    rw [hwrap]
    exact ⟨_, rfl⟩
  · intro hst
    unfold checkDepositQuoteHandler
    rw [hwrap]
    simp [hst]
  · intro e hst he
    unfold checkDepositQuoteHandler
    rw [hwrap]
    simp [hst, mintProofs, he]
  · intro ps e s' hst hps hsave
    unfold checkDepositQuoteHandler
    rw [hwrap]
    simp [hst, mintProofs, hps, hsave]
  · intro ps hst hps hfresh hnodup
    unfold checkDepositQuoteHandler
    rw [hwrap]
    simp [hst, mintProofs, hps, saveProofs_ok walletId ps ProofStatus.UNSPENT s hfresh hnodup]

/-- C8 witness: the theorem applied to a mint whose quote is PAID and
whose minting call fails; the response is still the successful quote
check on the unchanged store. -/
theorem checkDepositQuote_spec_witness :
    checkDepositQuoteHandler mintDepositW 1 "q1" [] =
      DbOut.ok (DepositQuoteResponse.mk "q1" "lnbc1" MintQuoteState.PAID 3600) [] :=
  (checkDepositQuote_spec mintDepositW 1 "q1" [] paidQuoteW rfl).2.2.1
    (Thrown.error "mint is down") rfl rfl

/-- C6 counterexample: inserting `[pA, pB]` into a store that already
holds a row with `pB`'s secret fails on the second create, yet the first
proof of the list has been persisted and the store has changed — the
multi-proof insert is not atomic. -/
theorem saveProofs_atomicity_cex :
    saveProofs 1 [pA, pB] ProofStatus.UNSPENT [proofToRow 1 ProofStatus.UNSPENT pB]
      = DbOut.err (Thrown.error "Unique constraint failed on the fields: secret")
          [proofToRow 1 ProofStatus.UNSPENT pB, proofToRow 1 ProofStatus.UNSPENT pA] ∧
    [proofToRow 1 ProofStatus.UNSPENT pB, proofToRow 1 ProofStatus.UNSPENT pA] ≠
      [proofToRow 1 ProofStatus.UNSPENT pB] := by
  constructor
  · decide
  · decide

/-- C6 amended: `saveProofs` inserts the rows one create at a time with
no surrounding transaction; it either succeeds with every row appended,
or aborts at some failing proof with exactly the earlier proofs of the
list already persisted. -/
theorem saveProofs_sequential_persist (walletId : Nat) (proofs : List Proof)
    (status : ProofStatus) (s : Store) :
    saveProofs walletId proofs status s =
      DbOut.ok () (s ++ proofs.map (proofToRow walletId status)) ∨
    (∃ k e, k < proofs.length ∧
      saveProofs walletId proofs status s =
        DbOut.err e (s ++ (proofs.take k).map (proofToRow walletId status))) := by
  induction proofs generalizing s with
  | nil => left; simp [saveProofs]
  | cons p rest ih =>
    by_cases hdup : (proofToRow walletId status p).secret ∈ s.map DbProof.secret
    · right
      refine ⟨0, Thrown.error "Unique constraint failed on the fields: secret", by simp, ?_⟩
      simp [saveProofs, proofCreate, hdup]
    · have hstep : saveProofs walletId (p :: rest) status s =
          saveProofs walletId rest status (s ++ [proofToRow walletId status p]) := by
        simp [saveProofs, proofCreate, hdup]
      rcases ih (s ++ [proofToRow walletId status p]) with hok | ⟨k, e, hk, herr⟩
      · left
        rw [hstep, hok]
        simp
      · right
        refine ⟨k + 1, e, by simpa using Nat.succ_lt_succ hk, ?_⟩
        rw [hstep, herr]
        simp

/-- C10: the `POST /wallet/check` overall state label is never the
string UNKNOWN; the empty proof-state list yields UNSPENT (every
all-quantified check is vacuously true), a non-empty list yields
UNSPENT, SPENT or PENDING exactly when all states agree on that value,
and MIXED in every other case. -/
theorem computeOverallState_spec (states : List CheckStateEnum) :
    computeOverallState states ≠ "UNKNOWN" ∧
    (states = [] → computeOverallState states = "UNSPENT") ∧
    ((computeOverallState states = "UNSPENT" ↔
        ∀ x ∈ states, x = CheckStateEnum.UNSPENT) ∧
     (computeOverallState states = "SPENT" ↔
        states ≠ [] ∧ ∀ x ∈ states, x = CheckStateEnum.SPENT) ∧
     (computeOverallState states = "PENDING" ↔
        states ≠ [] ∧ ∀ x ∈ states, x = CheckStateEnum.PENDING) ∧
     (computeOverallState states = "MIXED" ↔
        ¬(∀ x ∈ states, x = CheckStateEnum.UNSPENT) ∧
        ¬(∀ x ∈ states, x = CheckStateEnum.SPENT) ∧
        ¬(∀ x ∈ states, x = CheckStateEnum.PENDING))) := by
  have hchain : computeOverallState states =
      if states.all (fun x => decide (x = CheckStateEnum.UNSPENT)) then "UNSPENT"
      else if states.all (fun x => decide (x = CheckStateEnum.SPENT)) then "SPENT"
      else if states.all (fun x => decide (x = CheckStateEnum.PENDING)) then "PENDING"
      else "MIXED" := by
    unfold computeOverallState
    cases hb1 : states.all (fun x => decide (x = CheckStateEnum.UNSPENT)) <;>
      cases hb2 : states.all (fun x => decide (x = CheckStateEnum.SPENT)) <;>
        cases hb3 : states.all (fun x => decide (x = CheckStateEnum.PENDING)) <;>
          simp [hb1, hb2, hb3, Id.run]
  rw [hchain]
  by_cases h1 : ∀ x ∈ states, x = CheckStateEnum.UNSPENT
  · have hb1 : states.all (fun x => decide (x = CheckStateEnum.UNSPENT)) = true := by
      simpa [List.all_eq_true] using h1
    simp only [hb1, if_true]
    refine ⟨by decide, fun _ => by decide, iff_of_true (by decide) h1, ?_, ?_, ?_⟩
    · constructor
      · intro h; exact absurd h (by decide)
      · rintro ⟨hne, hall⟩
        obtain ⟨x, hx⟩ := List.exists_mem_of_ne_nil states hne
        have hu := h1 x hx
        have hs := hall x hx
        simp [hu] at hs
    · constructor
      · intro h; exact absurd h (by decide)
      · rintro ⟨hne, hall⟩
        obtain ⟨x, hx⟩ := List.exists_mem_of_ne_nil states hne
        have hu := h1 x hx
        have hs := hall x hx
        simp [hu] at hs
    · constructor
      · intro h; exact absurd h (by decide)
      · rintro ⟨hno, _, _⟩; exact absurd h1 hno
  · have hb1 : states.all (fun x => decide (x = CheckStateEnum.UNSPENT)) = false := by
      simpa [List.all_eq_true] using h1
    have hne : states ≠ [] := by
      rintro rfl
      exact h1 (by simp)
    simp only [hb1, Bool.false_eq_true, if_false]
    by_cases h2 : ∀ x ∈ states, x = CheckStateEnum.SPENT
    · have hb2 : states.all (fun x => decide (x = CheckStateEnum.SPENT)) = true := by
        simpa [List.all_eq_true] using h2
      simp only [hb2, if_true]
      refine ⟨by decide, fun h => absurd h hne, iff_of_false (by decide) h1,
        iff_of_true (by decide) ⟨hne, h2⟩, ?_, ?_⟩
      · constructor
        · intro h; exact absurd h (by decide)
        · rintro ⟨_, hall⟩
          obtain ⟨x, hx⟩ := List.exists_mem_of_ne_nil states hne
          have hs := h2 x hx
          have hp := hall x hx
          simp [hs] at hp
      · constructor
        · intro h; exact absurd h (by decide)
        · rintro ⟨_, hno2, _⟩; exact absurd h2 hno2
    · have hb2 : states.all (fun x => decide (x = CheckStateEnum.SPENT)) = false := by
        simpa [List.all_eq_true] using h2
      simp only [hb2, Bool.false_eq_true, if_false]
      by_cases h3 : ∀ x ∈ states, x = CheckStateEnum.PENDING
      · have hb3 : states.all (fun x => decide (x = CheckStateEnum.PENDING)) = true := by
          simpa [List.all_eq_true] using h3
        simp only [hb3, if_true]
        refine ⟨by decide, fun h => absurd h hne, iff_of_false (by decide) h1,
          ?_, iff_of_true (by decide) ⟨hne, h3⟩, ?_⟩
        · constructor
          · intro h; exact absurd h (by decide)
          · rintro ⟨_, hall⟩; exact absurd hall h2
        · constructor
          · intro h; exact absurd h (by decide)
          · rintro ⟨_, _, hno3⟩; exact absurd h3 hno3
      · have hb3 : states.all (fun x => decide (x = CheckStateEnum.PENDING)) = false := by
          simpa [List.all_eq_true] using h3
        simp only [hb3, Bool.false_eq_true, if_false]
        refine ⟨by decide, fun h => absurd h hne, iff_of_false (by decide) h1, ?_, ?_,
          iff_of_true (by decide) ⟨h1, h2, h3⟩⟩
        · constructor
          · intro h; exact absurd h (by decide)
          · rintro ⟨_, hall⟩; exact absurd hall h2
        · constructor
          · intro h; exact absurd h (by decide)
          · rintro ⟨_, hall⟩; exact absurd hall h3

/-- C9: `normalizePubkey` prepends 02 to the decoded x-only value of an
npub input, prepends 02 to a 64-character input, returns a 66-character
input unchanged, fails with a validation 400 error on every other input
(including npub inputs that do not decode to type npub), and every
successful result is 66 characters long. -/
theorem normalizePubkey_spec (decode : String → Except String Nip19Decoded)
    (pubkey : String)
    (hdec : ∀ d, decode pubkey = Except.ok (Nip19Decoded.npub d) → d.length = 64) :
    (∀ d, strStartsWith pubkey "npub" → decode pubkey = Except.ok (Nip19Decoded.npub d) →
      normalizePubkey decode pubkey = Except.ok ("02" ++ d)) ∧
    (strStartsWith pubkey "npub" → (∀ d, decode pubkey ≠ Except.ok (Nip19Decoded.npub d)) →
      normalizePubkey decode pubkey =
        Except.error (AppError.mk 400 ErrKind.VALIDATION_ERROR)) ∧
    (¬ strStartsWith pubkey "npub" → pubkey.length = 64 →
      normalizePubkey decode pubkey = Except.ok ("02" ++ pubkey)) ∧
    (¬ strStartsWith pubkey "npub" → pubkey.length = 66 →
      normalizePubkey decode pubkey = Except.ok pubkey) ∧
    (¬ strStartsWith pubkey "npub" → pubkey.length ≠ 64 → pubkey.length ≠ 66 →
      normalizePubkey decode pubkey =
        Except.error (AppError.mk 400 ErrKind.VALIDATION_ERROR)) ∧
    (∀ r, normalizePubkey decode pubkey = Except.ok r → r.length = 66) := by
  refine ⟨?_, ?_, ?_, ?_, ?_, ?_⟩
  · intro d hnp hd
    simp [normalizePubkey, hnp, hd]
  · intro hnp hno
    unfold normalizePubkey
    simp only [hnp, if_true]
    match hd : decode pubkey with
    | Except.ok (Nip19Decoded.npub d) => exact absurd hd (hno d)
    | Except.ok Nip19Decoded.other => rfl
    | Except.error _ => rfl
  · intro hnp h64
    simp [normalizePubkey, hnp, h64]
  · intro hnp h66
    have h64 : ¬ pubkey.length = 64 := by omega
    simp [normalizePubkey, hnp, h64, h66]
  · intro hnp h64 h66
    simp [normalizePubkey, hnp, h64, h66]
  · intro r hr
    unfold normalizePubkey at hr
    by_cases hnp : strStartsWith pubkey "npub"
    · simp only [hnp, if_true] at hr
      match hd : decode pubkey with
      | Except.ok (Nip19Decoded.npub d) =>
        rw [hd] at hr
        cases hr
        have := hdec d hd
        simp [String.length_append, this]
        decide
      | Except.ok Nip19Decoded.other => rw [hd] at hr; cases hr
      | Except.error msg => rw [hd] at hr; cases hr
    · simp only [hnp, if_false] at hr
      by_cases h64 : pubkey.length = 64
      · simp only [h64, if_true] at hr
        cases hr
        simp [String.length_append, h64]
        decide
      · simp only [h64, if_false] at hr
        by_cases h66 : pubkey.length = 66
        · simp only [h66, if_true] at hr
          cases hr
          exact h66
        · simp only [h66, if_false] at hr
          cases hr

/-- C9 witness: the theorem applied to the concrete decoder and the
npub fixture. -/
theorem normalizePubkey_spec_witness :
    normalizePubkey decodeW "npub1test" = Except.ok ("02" ++ xOnly64) :=
  (normalizePubkey_spec decodeW "npub1test"
      (by intro d h; simp [decodeW] at h; rw [← h]; decide)).1
    xOnly64 (by decide) (by simp [decodeW])

end Ippon
